import Mathlib

set_option maxHeartbeats 1000000
set_option maxRecDepth 8000

/-!
Shallow embedding of the core of "The Maze Learns" (a circular-maze game):
the seeded RNG (src/engine/rng.ts), the circular maze data model and
generator (src/maze/types.ts, src/maze/generator.ts), the BFS solver
(src/maze/solver.ts), the adaptive difficulty mapper (src/adapt/mapping.ts),
the player profile (src/adapt/profile.ts), the fixed-timestep scheduler
(src/engine/time.ts), collision (src/engine/collision.ts) and ball physics
(src/engine/physics.ts).

Modelling conventions:
* JS `number` values that stay integral are modelled as `Nat`/`Int`.
* JS floating-point arithmetic is modelled as exact arithmetic over `ℚ`
  (for the generator, mapper, profile and scheduler) or `ℝ` (for the
  geometry and physics, which use `sqrt`, `sin`, `cos`).
* The mulberry32 RNG works on 32-bit integer bit patterns; it is modelled
  exactly over `Nat` with explicit `% 2 ^ 32`.  Its float output is
  `u / 2 ^ 32` with `u` the 32-bit result, which is an exact dyadic
  rational, and `Math.floor(next() * n) = u * n / 2 ^ 32` (Nat division)
  exactly for every `n < 2 ^ 21`, covering every call site.
* In-place mutation of the cell grid is modelled by functional update of a
  total function `Nat → Nat → MazeCell`; the code never reads an
  out-of-range index on the paths the claims exercise.
* JS `while` loops are modelled by fuel-based recursion with fuel chosen
  at least as large as the exact iteration bound of the loop, so the
  fuel-out branch is never taken where a loop terminates.
-/

/-- Cell of the circular lattice (`MazeCell` in src/maze/types.ts). -/
structure MazeCell where
  ring : Nat
  slice : Nat
  wallInner : Bool
  wallOuter : Bool
  wallCW : Bool
  wallCCW : Bool
deriving DecidableEq, Repr

/-- Exit sector on the outermost ring (`ExitSector` in src/maze/types.ts). -/
structure ExitSector where
  sliceStart : Nat
  sliceCount : Nat
deriving DecidableEq, Repr

/-- Maze configuration (`MazeConfig` in src/maze/types.ts).  Radii are JS
numbers, modelled as rationals. -/
structure MazeConfig where
  rings : Nat
  slices : Nat
  seed : Nat
  innerRadius : ℚ
  outerRadius : ℚ
  ballRadius : ℚ

/-- Generation parameter bundle (`GenerationParams` in src/maze/types.ts). -/
structure GenerationParams where
  wallDensity : ℚ
  branchiness : ℚ
  corridorWidth : ℚ
  radialDensity : ℚ
  decoyRate : ℚ
  pathLengthBias : ℚ
  exitOffset : Int
  exitWidth : Nat

/-- Default generation parameters (src/maze/types.ts). -/
def defaultGenerationParams : GenerationParams :=
  { wallDensity := 0.3
    branchiness := 0.3
    corridorWidth := 1.0
    radialDensity := 0.2
    decoyRate := 0.2
    pathLengthBias := 0.5
    exitOffset := -1
    exitWidth := 2 }

/-- The IEEE-754 double closest to π, the exact value of JS `Math.PI`. -/
def jsPI : ℚ := 884279719003555 / 2 ^ 48

/-- Angular extent of one slice (`sliceAngle` in src/maze/types.ts). -/
def sliceAngle (slices : Nat) : ℚ := 2 * jsPI / slices

/-- Inner radius of a ring (`ringInnerRadius` in src/maze/types.ts). -/
def ringInnerRadius (cfg : MazeConfig) (ring : Nat) : ℚ :=
  cfg.innerRadius + ring * ((cfg.outerRadius - cfg.innerRadius) / cfg.rings)

/-- The mutable `MazeCell[][]` grid, modelled as a total function. -/
abbrev Grid := Nat → Nat → MazeCell

/-- Grid with all four walls present in every cell (`createEmptyGrid`). -/
def createEmptyGrid : Grid := fun r s =>
  { ring := r, slice := s, wallInner := true, wallOuter := true
    wallCW := true, wallCCW := true }

/-- Functional update of one cell of the grid. -/
def updCell (g : Grid) (r s : Nat) (f : MazeCell → MazeCell) : Grid :=
  fun r' s' => if r' = r ∧ s' = s then f (g r s) else g r' s'

def setWallInner (g : Grid) (r s : Nat) (b : Bool) : Grid :=
  updCell g r s fun c => { c with wallInner := b }

def setWallOuter (g : Grid) (r s : Nat) (b : Bool) : Grid :=
  updCell g r s fun c => { c with wallOuter := b }

def setWallCW (g : Grid) (r s : Nat) (b : Bool) : Grid :=
  updCell g r s fun c => { c with wallCW := b }

def setWallCCW (g : Grid) (r s : Nat) (b : Bool) : Grid :=
  updCell g r s fun c => { c with wallCCW := b }

/-! ### Seeded RNG (mulberry32, src/engine/rng.ts) -/

/-- RNG internal state: one 32-bit integer, kept as its unsigned pattern. -/
abbrev RNGState := Nat

/-- The modulus 2^32 of 32-bit patterns. -/
def U32 : Nat := 2 ^ 32

/-- JS `Math.imul` on 32-bit patterns. -/
def imul32 (a b : Nat) : Nat := a * b % U32

/-- One draw of mulberry32 (`next` in src/engine/rng.ts): returns the new
state and the 32-bit output `u`; the JS float result is `u / 2 ^ 32`. -/
def rngNext (state : RNGState) : RNGState × Nat :=
  let s := (state + 0x6d2b79f5) % U32
  let t1 := imul32 (s ^^^ (s >>> 15)) (s ||| 1)
  let t2 := ((t1 + imul32 (t1 ^^^ (t1 >>> 7)) (t1 ||| 61)) % U32) ^^^ t1
  (s, t2 ^^^ (t2 >>> 14))

/-- The JS float value of one RNG draw output. -/
def rngFloat (u : Nat) : ℚ := (u : ℚ) / U32

/-- JS `nextInt(0, n) = Math.floor(next() * n)`, exact as Nat division for
`n < 2 ^ 21` (every call site passes `n` far below that). -/
def rngNextInt (state : RNGState) (n : Nat) : RNGState × Nat :=
  let (s, u) := rngNext state
  (s, u * n / U32)

/-! ### Maze solver (src/maze/solver.ts) -/

/-- Result of `solveMaze`. -/
structure SolveResult where
  solvable : Bool
  path : List (Nat × Nat)
deriving Repr

/-- Flat key of a cell, `key(r, s) = r * slices + s` in src/maze/solver.ts. -/
def keyOf (slices r s : Nat) : Nat := r * slices + s

/-- The exit target set: keys of the outer-ring cells covered by the exit
sector (the `exitCells` set built at the top of `solveMaze`).  `solveMaze`
destructures `rings` and `slices` out of the config, as the JS code does. -/
def exitKeys (rings slices : Nat) (exit : ExitSector) : List Nat :=
  (List.range exit.sliceCount).map fun i =>
    keyOf slices (rings - 1) ((exit.sliceStart + i) % slices)

/-- The `visited` map of `solveMaze`: cell key ↦ parent key (or -1 for a
ring-0 start cell); `none` when the key was never visited. -/
abbrev VisMap := Nat → Option Int

/-- Insertion into the visited map. -/
def visSet (vis : VisMap) (k : Nat) (v : Int) : VisMap :=
  fun k' => if k' = k then some v else vis k'

/-- Path reconstruction of `solveMaze`: follow parent pointers from the
discovered exit cell back to a ring-0 start, prepending each visited cell
(the JS `path.unshift` loop).  `fuel` bounds the chain length; the caller
passes more fuel than any parent chain can be long. -/
def recPath (slices : Nat) (vis : VisMap) : Nat → Int → List (Nat × Nat)
  | 0, _ => []
  | fuel + 1, c =>
    if c < 0 then []
    else recPath slices vis fuel ((vis c.toNat).getD (-1)) ++
      [(c.toNat / slices, c.toNat % slices)]

/-- One conditional neighbor visit of the BFS: when the wall test passes
and the neighbor is unvisited, record the current cell as its parent and
enqueue it. -/
def tryVisit (slices : Nat) (vis : VisMap) (ck : Nat) (walkable : Bool)
    (r s : Nat) : VisMap × List (Nat × Nat) :=
  if walkable = true ∧ (vis (keyOf slices r s)).isNone = true then
    (visSet vis (keyOf slices r s) (ck : Int), [(r, s)])
  else (vis, [])

/-- The neighbor-exploration block of one BFS iteration, visiting the
inner, outer, cw and ccw neighbors in order with the respective wall and
ring-bound guards of src/maze/solver.ts.  Returns the updated visited map
and the cells to append to the queue. -/
def bfsVisitNeighbors (cells : Grid) (rings slices cr cs : Nat)
    (vis : VisMap) : VisMap × List (Nat × Nat) :=
  let ck := keyOf slices cr cs
  let cell := cells cr cs
  let step1 := tryVisit slices vis ck
    (decide (0 < cr) && (cell.wallInner == false)) (cr - 1) cs
  let step2 := tryVisit slices step1.1 ck
    (decide (cr < rings - 1) && (cell.wallOuter == false)) (cr + 1) cs
  let step3 := tryVisit slices step2.1 ck
    (cell.wallCW == false) cr ((cs + 1) % slices)
  let step4 := tryVisit slices step3.1 ck
    (cell.wallCCW == false) cr ((cs + slices - 1) % slices)
  (step4.1, step1.2 ++ step2.2 ++ step3.2 ++ step4.2)

/-- The BFS work loop of `solveMaze`.  The JS queue with a moving `head`
index is FIFO; here the queue is a list consumed at the front with new
cells appended at the back, in the same inner/outer/cw/ccw order.  Each
cell is enqueued at most once (it is inserted into `visited` first), so
the queue processes at most `rings * slices` cells; the fuel passed by
`solveMaze` exceeds that, so the fuel-out branch is never taken. -/
def bfsLoop (cells : Grid) (rings slices : Nat) (exit : ExitSector) :
    Nat → List (Nat × Nat) → VisMap → SolveResult
  | 0, _, _ => ⟨false, []⟩
  | _ + 1, [], _ => ⟨false, []⟩
  | fuel + 1, (cr, cs) :: rest, vis =>
    if (exitKeys rings slices exit).contains (keyOf slices cr cs) ∧
        (cells cr cs).wallOuter = false then
      ⟨true, recPath slices vis (rings * slices + 1) (keyOf slices cr cs)⟩
    else
      bfsLoop cells rings slices exit fuel
        (rest ++ (bfsVisitNeighbors cells rings slices cr cs vis).2)
        (bfsVisitNeighbors cells rings slices cr cs vis).1

/-- Parent chains of the visited map: `chainTo vis k n` states that
following parent pointers from key `k` reaches a root (parent -1) in
exactly `n` steps. -/
def chainTo (vis : VisMap) : Nat → Nat → Prop
  | k, 0 => vis k = some (-1)
  | k, n + 1 => ∃ p : Nat, vis k = some (p : Int) ∧ chainTo vis p n

/-- Invariant of the BFS visited map: roots are exactly ring-0 keys (below
`slices`), and every visited key has a parent chain of length at most `c`
reaching a root. -/
def VisInv (slices : Nat) (vis : VisMap) (c : Nat) : Prop :=
  (∀ k, vis k = some (-1) → k < slices) ∧
  (∀ k p, vis k = some p → ∃ n, n ≤ c ∧ chainTo vis k n)

/-- Invariant of the BFS queue: entries are valid cells already recorded
in the visited map. -/
def QueueInv (rings slices : Nat) (vis : VisMap)
    (q : List (Nat × Nat)) : Prop :=
  ∀ p ∈ q, p.1 < rings ∧ p.2 < slices ∧
    (vis (keyOf slices p.1 p.2)).isSome = true

/-- The path-shape specification of a solver result: a solvable result
carries a non-empty path from a ring-0 cell to an exit-sector cell of the
outermost ring whose outer wall is open; an unsolvable result carries the
empty path. -/
def PathSpec (cells : Grid) (rings slices : Nat) (exit : ExitSector)
    (res : SolveResult) : Prop :=
  (res.solvable = true →
    res.path ≠ [] ∧
    (∃ s0, s0 < slices ∧ res.path.head? = some (0, s0)) ∧
    (∃ j, j < exit.sliceCount ∧
      res.path.getLast? = some (rings - 1, (exit.sliceStart + j) % slices) ∧
      (cells (rings - 1) ((exit.sliceStart + j) % slices)).wallOuter = false)) ∧
  (res.solvable = false → res.path = [])

/-- BFS solvability check (`solveMaze` in src/maze/solver.ts): breadth-first
search seeded from every ring-0 cell, succeeding at the first exit-sector
cell reached whose outer wall is open.  The initial `visited` map holds
`key(0, s) = s ↦ -1` for every slice `s`. -/
def solveMaze (cells : Grid) (cfg : MazeConfig) (exit : ExitSector) :
    SolveResult :=
  let starts := (List.range cfg.slices).map fun s => ((0 : Nat), s)
  let vis0 : VisMap := fun k => if k < cfg.slices then some (-1) else none
  bfsLoop cells cfg.rings cfg.slices exit (cfg.rings * cfg.slices + 1) starts
    vis0

/-! ### Maze generator (src/maze/generator.ts) -/

/-- Wall directions of a neighbor move. -/
inductive Dir
  | inner
  | outer
  | cw
  | ccw
deriving DecidableEq, Repr

/-- A lattice neighbor (`Neighbor` in src/maze/generator.ts). -/
structure Neighbor where
  ring : Nat
  slice : Nat
  direction : Dir
deriving DecidableEq, Repr

/-- Neighbor enumeration (`getNeighbors`): inner (when not at ring 0), outer
(when not at the last ring), then cw and ccw with slice wrap-around.  The
JS `(slice - 1 + slices) % slices` is written `(slice + slices - 1) %
slices`, the same integer for every `slices ≥ 1`. -/
def getNeighbors (ring slice : Nat) (cfg : MazeConfig) : List Neighbor :=
  (if 0 < ring then [⟨ring - 1, slice, Dir.inner⟩] else []) ++
  (if ring < cfg.rings - 1 then [⟨ring + 1, slice, Dir.outer⟩] else []) ++
  [⟨ring, (slice + 1) % cfg.slices, Dir.cw⟩,
   ⟨ring, (slice + cfg.slices - 1) % cfg.slices, Dir.ccw⟩]

/-- Remove the wall between two adjacent cells, clearing the matching flag
on both sides (`removeWall` in src/maze/generator.ts). -/
def removeWall (cells : Grid) (r1 s1 r2 s2 : Nat) (d : Dir) : Grid :=
  match d with
  | .inner => setWallOuter (setWallInner cells r1 s1 false) r2 s2 false
  | .outer => setWallInner (setWallOuter cells r1 s1 false) r2 s2 false
  | .cw => setWallCCW (setWallCW cells r1 s1 false) r2 s2 false
  | .ccw => setWallCW (setWallCCW cells r1 s1 false) r2 s2 false

/-- Weight multiplier for arc (cw/ccw) directions in the DFS. -/
def ARC_BIAS : Nat := 4

/-- The weighted candidate list of the DFS: unvisited neighbors, with arc
(cw/ccw) neighbors repeated `ARC_BIAS` times, in neighbor order. -/
def weightedNeighbors (vis : Nat → Bool) (slices : Nat)
    (ns : List Neighbor) : List Neighbor :=
  ns.foldr (fun n acc =>
    if vis (keyOf slices n.ring n.slice) then acc
    else
      List.replicate
        (match n.direction with | .cw => ARC_BIAS | .ccw => ARC_BIAS | _ => 1)
        n ++ acc) []

/-- The DFS stack loop of `carveSpanningTree`.  Each iteration either pushes
a newly visited cell or pops the stack, so the loop runs at most
`2 * rings * slices + 1` times; the fuel passed exceeds that. -/
def carveLoop (cfg : MazeConfig) :
    Nat → Grid → (Nat → Bool) → List (Nat × Nat) → RNGState → Grid × RNGState
  | 0, g, _, _, st => (g, st)
  | fuel + 1, g, vis, stack, st =>
    match stack with
    | [] => (g, st)
    | (cr, cs) :: rest =>
      let weighted := weightedNeighbors vis cfg.slices (getNeighbors cr cs cfg)
      if weighted.length = 0 then carveLoop cfg fuel g vis rest st
      else
        let d := rngNextInt st weighted.length
        let chosen := weighted.getD d.2 ⟨0, 0, Dir.cw⟩
        let vis' := fun k => k == keyOf cfg.slices chosen.ring chosen.slice || vis k
        let g' := removeWall g cr cs chosen.ring chosen.slice chosen.direction
        carveLoop cfg fuel g' vis' ((chosen.ring, chosen.slice) :: (cr, cs) :: rest) d.1

/-- Arc-biased randomized DFS spanning-tree carving (`carveSpanningTree`).
The JS visited set of string keys is modelled by the equivalent
characteristic function on flat keys (injective on valid cells). -/
def carveSpanningTree (g : Grid) (cfg : MazeConfig) (st : RNGState) :
    Grid × RNGState :=
  let d := rngNextInt st cfg.slices
  let vis := fun k => k == keyOf cfg.slices 0 d.2
  carveLoop cfg (2 * cfg.rings * cfg.slices + 2) g vis [(0, d.2)] d.1

/-- Open 2-3 evenly spaced entry holes in ring 0's inner wall
(`openEntryHoles`). -/
def openEntryHoles (g : Grid) (cfg : MazeConfig) (st : RNGState) :
    Grid × RNGState :=
  let numHoles := min 3 (max 2 (cfg.slices / 4))
  let spacing := cfg.slices / numHoles
  let d := rngNextInt st cfg.slices
  ((List.range numHoles).foldl (fun acc i =>
      setWallInner acc 0 ((d.2 + i * spacing) % cfg.slices) false) g,
   d.1)

/-- One iteration of the `addExtraOpenings` loop, with the JS short-circuit
RNG draws reproduced exactly: the `< 0.5` draw happens only when `r > 0`
and the inner wall is present. -/
def extraOpeningStep (cfg : MazeConfig) (gst : Grid × RNGState) :
    Grid × RNGState :=
  let d1 := rngNextInt gst.2 cfg.rings
  let r := d1.2
  let d2 := rngNextInt d1.1 cfg.slices
  let s := d2.2
  let g := gst.1
  let cell := g r s
  let d3 := rngNext d2.1
  if rngFloat d3.2 < 0.7 then
    if 0 < r ∧ cell.wallInner = true then
      let d4 := rngNext d3.1
      if rngFloat d4.2 < 0.5 then (removeWall g r s (r - 1) s Dir.inner, d4.1)
      else if r < cfg.rings - 1 ∧ cell.wallOuter = true then
        (removeWall g r s (r + 1) s Dir.outer, d4.1)
      else (g, d4.1)
    else if r < cfg.rings - 1 ∧ cell.wallOuter = true then
      (removeWall g r s (r + 1) s Dir.outer, d3.1)
    else (g, d3.1)
  else
    let ns := (s + 1) % cfg.slices
    if cell.wallCW = true then (removeWall g r s r ns Dir.cw, d3.1)
    else (g, d3.1)

/-- Add extra openings beyond the spanning tree (`addExtraOpenings`);
the count is `Math.floor(totalCells * branchiness * 0.5)`. -/
def addExtraOpenings (g : Grid) (cfg : MazeConfig) (params : GenerationParams)
    (st : RNGState) : Grid × RNGState :=
  let totalCells : ℚ := ((cfg.rings * cfg.slices : Nat) : ℚ)
  let openingsToAdd := (Int.floor (totalCells * params.branchiness * 0.5)).toNat
  (List.range openingsToAdd).foldl (fun gst _ => extraOpeningStep cfg gst) (g, st)

/-- Clear the cw wall of `(r, s)` together with the matching ccw flag of the
slice-adjacent cell, as done inline by `capRadialWalls` and the fallback. -/
def clearPairCW (g : Grid) (slices r s : Nat) : Grid :=
  setWallCCW (setWallCW g r s false) r ((s + 1) % slices) false

/-- One cell step of `capRadialWalls`: skip when the cw wall is already
open (no RNG draw), clear outright on odd rings (no draw), otherwise draw
and keep the wall only with probability `radialDensity`. -/
def capCell (cfg : MazeConfig) (params : GenerationParams)
    (gst : Grid × RNGState) (r s : Nat) : Grid × RNGState :=
  if (gst.1 r s).wallCW = false then gst
  else if r % 2 = 1 then (clearPairCW gst.1 cfg.slices r s, gst.2)
  else if params.radialDensity < rngFloat (rngNext gst.2).2 then
    (clearPairCW gst.1 cfg.slices r s, (rngNext gst.2).1)
  else (gst.1, (rngNext gst.2).1)

/-- Cap tangential wall density (`capRadialWalls`): all cw walls removed on
odd rings, kept only with probability `radialDensity` on even rings. -/
def capRadialWalls (g : Grid) (cfg : MazeConfig) (params : GenerationParams)
    (st : RNGState) : Grid × RNGState :=
  (List.range cfg.rings).foldl (fun acc r =>
    (List.range cfg.slices).foldl (fun acc2 s => capCell cfg params acc2 r s) acc)
    (g, st)

/-- Place the exit sector on the outer ring (`placeExit`), clearing the
outer wall of `sliceCount = min(exitWidth, slices)` slices starting at
`exitOffset % slices` (or a random slice when `exitOffset < 0`). -/
def placeExit (g : Grid) (cfg : MazeConfig) (params : GenerationParams)
    (st : RNGState) : Grid × ExitSector × RNGState :=
  let start :=
    if 0 ≤ params.exitOffset then
      (st, (params.exitOffset % (cfg.slices : Int)).toNat)
    else rngNextInt st cfg.slices
  let sliceStart := start.2
  let sliceCount := min params.exitWidth cfg.slices
  ((List.range sliceCount).foldl (fun acc i =>
      setWallOuter acc (cfg.rings - 1) ((sliceStart + i) % cfg.slices) false) g,
   ⟨sliceStart, sliceCount⟩, start.1)

/-- Clear any remaining inner/outer wall pair along the radial line at the
exit's start slice (`ensurePathToExit`). -/
def ensurePathToExit (g : Grid) (cfg : MazeConfig) (exit : ExitSector) : Grid :=
  let ts := exit.sliceStart
  (List.range (cfg.rings - 1)).foldl (fun acc r =>
    if (acc r ts).wallOuter = true ∧ (acc (r + 1) ts).wallInner = true then
      setWallInner (setWallOuter acc r ts false) (r + 1) ts false
    else acc) g

/-- Margin in pixels beyond the ball diameter for a traversable passage. -/
def GEOMETRIC_MARGIN : ℚ := 4

/-- Geometric feasibility check (`checkGeometricConstraints`): ring width
and innermost arc length must both reach `2 * ballRadius + margin`. -/
def checkGeometricConstraints (cfg : MazeConfig) : Bool :=
  let rw := (cfg.outerRadius - cfg.innerRadius) / (cfg.rings : ℚ)
  let minCellHeight := 2 * cfg.ballRadius + GEOMETRIC_MARGIN
  if rw < minCellHeight then false
  else
    let innerR := ringInnerRadius cfg 0
    let arcLen := innerR * sliceAngle cfg.slices
    if arcLen < minCellHeight then false else true

/-- Generated maze bundle (`MazeData` in src/maze/types.ts). -/
structure MazeData where
  cells : Grid
  exit : ExitSector
  config : MazeConfig
  params : GenerationParams
  finalSeed : Nat

/-- Cell grid of the deterministic fallback maze, built from the ring and
slice counts: a full tangential corridor on every ring, one radial
connection per ring boundary at slice `r % slices`, and the outer wall
cleared at slices 0 and 1 of the last ring. -/
def fallbackCells (rings slices : Nat) : Grid :=
  let g1 := (List.range rings).foldl (fun acc r =>
    let acc2 := (List.range slices).foldl
      (fun a s => clearPairCW a slices r s) acc
    if r < rings - 1 then
      let connectSlice := r % slices
      setWallInner (setWallOuter acc2 r connectSlice false) (r + 1) connectSlice
        false
    else acc2) createEmptyGrid
  setWallOuter (setWallOuter g1 (rings - 1) 0 false) (rings - 1) 1 false

/-- Deterministic fallback maze (`generateFallbackMaze`): the fallback grid
with a two-slice exit sector starting at slice 0. -/
def generateFallbackMaze (cfg : MazeConfig) (params : GenerationParams) :
    MazeData :=
  ⟨fallbackCells cfg.rings cfg.slices, ⟨0, 2⟩, cfg, params, cfg.seed⟩

/-- One full carving attempt of `generateMaze` (steps 1-5 of the loop body),
threading the RNG state exactly as the JS draws happen. -/
def genAttempt (cfg : MazeConfig) (params : GenerationParams) (seed : Nat) :
    Grid × ExitSector :=
  let st0 : RNGState := seed % U32
  let c1 := carveSpanningTree createEmptyGrid cfg st0
  let c2 := openEntryHoles c1.1 cfg c1.2
  let c3 := addExtraOpenings c2.1 cfg params c2.2
  let c4 := capRadialWalls c3.1 cfg params c3.2
  let c5 := placeExit c4.1 cfg params c4.2
  (ensurePathToExit c5.1 cfg c5.2.1, c5.2.1)

/-- The retry loop of `generateMaze`: each attempt checks geometric
feasibility, carves, validates with the solver, and retries with `seed + 1`
on failure; after the budget is exhausted the fallback maze is returned.
(The JS code creates the RNG before the geometric check, but the unused
instance has no effect; a failed check just advances the seed.) -/
def genLoop (cfg : MazeConfig) (params : GenerationParams) :
    Nat → Nat → MazeData
  | 0, _ => generateFallbackMaze cfg params
  | fuel + 1, seed =>
    if checkGeometricConstraints cfg = false then
      genLoop cfg params fuel (seed + 1)
    else if (solveMaze (genAttempt cfg params seed).1 cfg
        (genAttempt cfg params seed).2).solvable = true then
      ⟨(genAttempt cfg params seed).1, (genAttempt cfg params seed).2, cfg,
       params, seed⟩
    else genLoop cfg params fuel (seed + 1)

/-- Retry budget of the generator. -/
def MAX_REGEN_ATTEMPTS : Nat := 20

/-- Generate a solvable circular maze (`generateMaze` in
src/maze/generator.ts). -/
def generateMaze (cfg : MazeConfig) (params : GenerationParams) : MazeData :=
  genLoop cfg params MAX_REGEN_ATTEMPTS cfg.seed

/-! ### Player profile (src/adapt/profile.ts) and metrics snapshot -/

/-- Normalized metrics snapshot of one attempt (`AttemptMetrics` in
src/adapt/metrics.ts).  All numeric fields are JS numbers, modelled as
rationals. -/
structure AttemptMetrics where
  totalTime : ℚ
  avgSpeed : ℚ
  idleRatio : ℚ
  riskRatio : ℚ
  collisionCount : ℚ
  directionChanges : ℚ
  exploration : ℚ
  won : Bool

/-- EMA-smoothed cross-attempt player profile (`PlayerProfile` in
src/adapt/profile.ts). -/
structure PlayerProfile where
  avgSpeed : ℚ
  avgIdleRatio : ℚ
  avgRiskRatio : ℚ
  avgCollisions : ℚ
  avgDirChanges : ℚ
  avgExploration : ℚ
  avgTime : ℚ
  attempts : Nat

/-- Fresh profile (`createProfile`). -/
def createProfile : PlayerProfile := ⟨0, 0, 0, 0, 0, 0, 0, 0⟩

/-- Weight of the latest attempt in the exponential moving average. -/
def EMA_ALPHA : ℚ := 0.3

/-- One EMA blend (`ema` in src/adapt/profile.ts). -/
def ema (prev current : ℚ) : ℚ := prev * (1 - EMA_ALPHA) + current * EMA_ALPHA

/-- Update the profile with the latest attempt metrics (`updateProfile`):
the first attempt copies the snapshot directly, later attempts blend each
field by EMA. -/
def updateProfile (p : PlayerProfile) (m : AttemptMetrics) : PlayerProfile :=
  let attempts := p.attempts + 1
  if attempts = 1 then
    ⟨m.avgSpeed, m.idleRatio, m.riskRatio, m.collisionCount,
     m.directionChanges, m.exploration, m.totalTime, attempts⟩
  else
    ⟨ema p.avgSpeed m.avgSpeed, ema p.avgIdleRatio m.idleRatio,
     ema p.avgRiskRatio m.riskRatio, ema p.avgCollisions m.collisionCount,
     ema p.avgDirChanges m.directionChanges,
     ema p.avgExploration m.exploration, ema p.avgTime m.totalTime, attempts⟩

/-! ### Difficulty mapper (src/adapt/mapping.ts) -/

/-- One clamp range of the `CLAMPS` table. -/
structure ClampRange where
  lo : ℚ
  hi : ℚ

/-- Clamp ranges for all generation params (the `CLAMPS` table). -/
structure ClampTable where
  wallDensity : ClampRange
  branchiness : ClampRange
  corridorWidth : ClampRange
  radialDensity : ClampRange
  decoyRate : ClampRange
  pathLengthBias : ClampRange
  exitWidth : ClampRange

/-- The `CLAMPS` constant of src/adapt/mapping.ts. -/
def CLAMPS : ClampTable :=
  ⟨⟨0.1, 0.7⟩, ⟨0.05, 0.6⟩, ⟨1.0, 2.0⟩, ⟨0.1, 0.35⟩, ⟨0.0, 0.5⟩,
   ⟨0.2, 0.8⟩, ⟨1, 2⟩⟩

/-- Maximum change of a rate-limited parameter per attempt. -/
def MAX_DELTA : ℚ := 0.1

/-- `clamp(value, min, max) = Math.max(min, Math.min(max, value))`. -/
def clamp (value lo hi : ℚ) : ℚ := max lo (min hi value)

/-- JS `Math.sign`. -/
def jsSign (x : ℚ) : ℚ := if 0 < x then 1 else if x < 0 then -1 else 0

/-- Rate limiter (`rateLimited` in src/adapt/mapping.ts): return the target
when it is within `maxDelta` of the previous value, otherwise move by
`maxDelta` toward it. -/
def rateLimited (prev target maxDelta : ℚ) : ℚ :=
  if |target - prev| ≤ maxDelta then target
  else prev + jsSign (target - prev) * maxDelta

/-- Map the player profile to the next generation params
(`mapProfileToParams` in src/adapt/mapping.ts): identity before any
attempt, otherwise per-field monotone targets, rate-limited against the
previous params and clamped; `exitOffset` is always re-randomized (-1) and
`exitWidth` is set directly from the profile. -/
def mapProfileToParams (profile : PlayerProfile)
    (currentParams : GenerationParams) : GenerationParams :=
  if profile.attempts < 1 then currentParams
  else
    let targetWallDensity := 0.2 + profile.avgSpeed / 500
    let targetPathLength := 0.3 + profile.avgSpeed / 600
    let targetBranchiness := 0.15 + (1 - profile.avgDirChanges / 50) * 0.3
    let targetDecoyRate := 0.1 + (1 - profile.avgCollisions / 20) * 0.2
    let targetCorridorWidth := 1.5 - profile.avgExploration * 0.5
    let targetRadialDensity := 0.2 + profile.avgRiskRatio * 0.15
    let targetExitWidth : Nat := if 60 < profile.avgTime then 2 else 1
    { wallDensity :=
        clamp (rateLimited currentParams.wallDensity targetWallDensity MAX_DELTA)
          CLAMPS.wallDensity.lo CLAMPS.wallDensity.hi
      branchiness :=
        clamp (rateLimited currentParams.branchiness targetBranchiness MAX_DELTA)
          CLAMPS.branchiness.lo CLAMPS.branchiness.hi
      corridorWidth :=
        clamp (rateLimited currentParams.corridorWidth targetCorridorWidth MAX_DELTA)
          CLAMPS.corridorWidth.lo CLAMPS.corridorWidth.hi
      radialDensity :=
        clamp (rateLimited currentParams.radialDensity targetRadialDensity MAX_DELTA)
          CLAMPS.radialDensity.lo CLAMPS.radialDensity.hi
      decoyRate :=
        clamp (rateLimited currentParams.decoyRate targetDecoyRate MAX_DELTA)
          CLAMPS.decoyRate.lo CLAMPS.decoyRate.hi
      pathLengthBias :=
        clamp (rateLimited currentParams.pathLengthBias targetPathLength MAX_DELTA)
          CLAMPS.pathLengthBias.lo CLAMPS.pathLengthBias.hi
      exitOffset := -1
      exitWidth := targetExitWidth }

/-! ### Fixed-timestep scheduler (src/engine/time.ts) -/

/-- Physics tick rate. -/
def PHYSICS_HZ : ℚ := 120

/-- Fixed physics step, `1 / PHYSICS_HZ` seconds. -/
def FIXED_DT : ℚ := 1 / PHYSICS_HZ

/-- Clamp on the per-frame wall-clock delta. -/
def MAX_FRAME_TIME : ℚ := 0.1

/-- Scheduler state (`TimeState` in src/engine/time.ts). -/
structure TimeState where
  accumulator : ℚ
  lastTime : ℚ
  alpha : ℚ
  elapsed : ℚ

/-- Fresh time state (`createTimeState`), given the current clock reading
in milliseconds. -/
def createTimeState (now0 : ℚ) : TimeState := ⟨0, now0 / 1000, 0, 0⟩

/-- The `while (accumulator >= FIXED_DT)` loop of `updateTime`: returns the
remaining accumulator and the number of ticks run.  `fuel` bounds the
iterations; `updateTime` passes strictly more fuel than the loop can
iterate, so the fuel-out branch is never taken. -/
def drainTicks : Nat → ℚ → ℚ × Nat
  | 0, acc => (acc, 0)
  | fuel + 1, acc =>
    if FIXED_DT ≤ acc then
      let r := drainTicks fuel (acc - FIXED_DT)
      (r.1, r.2 + 1)
    else (acc, 0)

/-- Fuel that strictly exceeds the number of iterations of the drain loop
on accumulator `acc`. -/
def drainFuel (acc : ℚ) : Nat := (Int.floor (acc / FIXED_DT)).toNat + 1

/-- Advance the time state (`updateTime` in src/engine/time.ts): clamp the
elapsed wall-clock delta, add it to the accumulator, run the physics tick
with `FIXED_DT` while a full step is banked, and store the interpolation
alpha.  The tick callback is modelled as a state transformer on `α`. -/
def updateTime {α : Type} (s : TimeState) (now : ℚ) (tick : ℚ → α → α)
    (a : α) : TimeState × α :=
  let currentTime := now / 1000
  let frameTime0 := currentTime - s.lastTime
  let frameTime := if MAX_FRAME_TIME < frameTime0 then MAX_FRAME_TIME else frameTime0
  let acc0 := s.accumulator + frameTime
  let d := drainTicks (drainFuel acc0) acc0
  ({ accumulator := d.1
     lastTime := currentTime
     alpha := d.1 / FIXED_DT
     elapsed := s.elapsed + d.2 * FIXED_DT },
   (tick FIXED_DT)^[d.2] a)

/-- Fold `updateTime` over a sequence of frame timestamps. -/
def runSchedule {α : Type} (tick : ℚ → α → α) (sa : TimeState × α)
    (nows : List ℚ) : TimeState × α :=
  nows.foldl (fun p now => updateTime p.1 now tick p.2) sa

/-! ### Ball physics (src/engine/physics.ts) -/

/-- Ball kinematic state (`Ball` in src/engine/physics.ts). -/
structure Ball where
  x : ℝ
  y : ℝ
  vx : ℝ
  vy : ℝ
  radius : ℝ

/-- Gravity strength, px/s^2. -/
def GRAVITY : ℝ := 600

/-- Per-tick velocity multiplier. -/
def FRICTION : ℝ := 0.985

/-- Bounce coefficient. -/
def RESTITUTION : ℝ := 0.4

/-- Speed cap, px/s. -/
def MAX_SPEED : ℝ := 800

/-- Speed (velocity magnitude) of a ball. -/
noncomputable def ballSpeed (b : Ball) : ℝ :=
  Real.sqrt (b.vx * b.vx + b.vy * b.vy)

open Classical in
/-- Advance ball physics by `dt` seconds (`integrateBall`): gravity rotated
into the maze frame, semi-implicit Euler velocity update, friction, speed
cap, then position update with the final velocity. -/
noncomputable def integrateBall (b : Ball) (dt mazeAngle : ℝ) : Ball :=
  let gx := GRAVITY * Real.sin mazeAngle
  let gy := GRAVITY * Real.cos mazeAngle
  let vx1 := (b.vx + gx * dt) * FRICTION
  let vy1 := (b.vy + gy * dt) * FRICTION
  let speed := Real.sqrt (vx1 * vx1 + vy1 * vy1)
  let scale := if MAX_SPEED < speed then MAX_SPEED / speed else 1
  let vx2 := vx1 * scale
  let vy2 := vy1 * scale
  { b with x := b.x + vx2 * dt, y := b.y + vy2 * dt, vx := vx2, vy := vy2 }

open Classical in
/-- Collision response (`bounceBall`): push the ball out of the wall along
the normal by the penetration depth, then reflect the velocity scaled by
`1 + RESTITUTION`, but only when the ball still moves into the wall. -/
noncomputable def bounceBall (b : Ball) (n : ℝ × ℝ) (penetration : ℝ) : Ball :=
  let x' := b.x + n.1 * penetration
  let y' := b.y + n.2 * penetration
  let dot := b.vx * n.1 + b.vy * n.2
  if dot < 0 then
    { b with x := x', y := y'
             vx := b.vx - (1 + RESTITUTION) * dot * n.1
             vy := b.vy - (1 + RESTITUTION) * dot * n.2 }
  else { b with x := x', y := y' }

/-! ### Collision detection (src/engine/collision.ts) -/

/-- Immutable 2-D line segment. -/
structure Segment where
  x1 : ℝ
  y1 : ℝ
  x2 : ℝ
  y2 : ℝ

/-- Result of `circleVsSegment`. -/
structure CollisionResult where
  hit : Bool
  normal : ℝ × ℝ
  penetration : ℝ

/-- The degeneracy threshold `1e-10` of src/engine/collision.ts. -/
def EPS : ℝ := 1e-10

/-- Squared length of a segment. -/
def segLenSq (s : Segment) : ℝ :=
  (s.x2 - s.x1) * (s.x2 - s.x1) + (s.y2 - s.y1) * (s.y2 - s.y1)

/-- The clamped projection parameter of the ball center onto the segment
(`t` in `circleVsSegment`). -/
noncomputable def segClosestT (b : Ball) (s : Segment) : ℝ :=
  max 0 (min 1 (((b.x - s.x1) * (s.x2 - s.x1) + (b.y - s.y1) * (s.y2 - s.y1))
    / segLenSq s))

/-- The closest point of the segment to the ball center (`cx, cy`). -/
noncomputable def segClosestPoint (b : Ball) (s : Segment) : ℝ × ℝ :=
  (s.x1 + segClosestT b s * (s.x2 - s.x1),
   s.y1 + segClosestT b s * (s.y2 - s.y1))

/-- Distance from the ball center to the closest point of the segment. -/
noncomputable def segDist (b : Ball) (s : Segment) : ℝ :=
  Real.sqrt ((b.x - (segClosestPoint b s).1) * (b.x - (segClosestPoint b s).1) +
    (b.y - (segClosestPoint b s).2) * (b.y - (segClosestPoint b s).2))

open Classical in
/-- Circle-vs-segment test (`circleVsSegment` in src/engine/collision.ts):
no hit for a degenerate segment (`lenSq < 1e-10`), a center at distance at
least the radius (`dist >= radius`), or a near-zero distance
(`dist < 1e-10`); otherwise hit with normal from the closest point toward
the center and penetration `radius - dist`. -/
noncomputable def circleVsSegment (b : Ball) (s : Segment) : CollisionResult :=
  if segLenSq s < EPS then ⟨false, (0, 0), 0⟩
  else if b.radius ≤ segDist b s ∨ segDist b s < EPS then ⟨false, (0, 0), 0⟩
  else ⟨true,
    ((b.x - (segClosestPoint b s).1) / segDist b s,
     (b.y - (segClosestPoint b s).2) / segDist b s),
    b.radius - segDist b s⟩


/-- The shared-wall pairing invariant of the data model: for every valid
cell, its cw flag agrees with the ccw flag of the slice-adjacent cell, and
its outer flag agrees with the inner flag of the next ring's cell. -/
def pairedWalls (g : Grid) (rings slices : Nat) : Prop :=
  ∀ r s, r < rings → s < slices →
    ((g r s).wallCW = (g r ((s + 1) % slices)).wallCCW) ∧
    (r + 1 < rings → (g r s).wallOuter = (g (r + 1) s).wallInner)

/-- Correct adjacency of a neighbor record relative to `(cr, cs)`, as
produced by `getNeighbors`. -/
def AdjOK (slices cr cs : Nat) (n : Neighbor) : Prop :=
  match n.direction with
  | .inner => 0 < cr ∧ n.ring = cr - 1 ∧ n.slice = cs
  | .outer => n.ring = cr + 1 ∧ n.slice = cs
  | .cw => n.ring = cr ∧ n.slice = (cs + 1) % slices
  | .ccw => n.ring = cr ∧ n.slice = (cs + slices - 1) % slices

/-! ### C1: generation always yields a solvable maze -/

/-- Helper for C1: whatever the retry loop returns — a carved maze accepted
by the solver, or the deterministic fallback after the budget is spent —
the solver reports it solvable, provided the fallback maze of this config
is solvable.  The success branch returns only under the solver's own
guard, so the claim is immediate there. -/
theorem genLoop_solvable (cfg : MazeConfig) (params : GenerationParams)
    (hfb : (solveMaze (generateFallbackMaze cfg params).cells cfg
      (generateFallbackMaze cfg params).exit).solvable = true) :
    ∀ fuel seed,
      (solveMaze (genLoop cfg params fuel seed).cells
        (genLoop cfg params fuel seed).config
        (genLoop cfg params fuel seed).exit).solvable = true := by
  intro fuel
  induction fuel with
  | zero =>
    intro seed
    simpa [genLoop, generateFallbackMaze] using hfb
  | succ n ih =>
    intro seed
    rw [genLoop]
    split
    · exact ih (seed + 1)
    · split
      · next h => simpa using h
      · exact ih (seed + 1)

/-- C1: for every seed below 50 and each of the shapes (2,4), (4,16),
(6,12) with innerRadius 30, outerRadius 200, ballRadius 6 and the default
generation parameters, `generateMaze` returns a maze that `solveMaze`
reports solvable; generation never fails because the deterministic
fallback maze is returned after the retry budget.  (The proof holds for
every seed; the hypothesis records the claim's range.) -/
theorem generateMaze_solvable_standardConfigs (seed : Nat) (hseed : seed < 50) :
    (solveMaze (generateMaze ⟨2, 4, seed, 30, 200, 6⟩ defaultGenerationParams).cells
        (generateMaze ⟨2, 4, seed, 30, 200, 6⟩ defaultGenerationParams).config
        (generateMaze ⟨2, 4, seed, 30, 200, 6⟩ defaultGenerationParams).exit).solvable = true ∧
    (solveMaze (generateMaze ⟨4, 16, seed, 30, 200, 6⟩ defaultGenerationParams).cells
        (generateMaze ⟨4, 16, seed, 30, 200, 6⟩ defaultGenerationParams).config
        (generateMaze ⟨4, 16, seed, 30, 200, 6⟩ defaultGenerationParams).exit).solvable = true ∧
    (solveMaze (generateMaze ⟨6, 12, seed, 30, 200, 6⟩ defaultGenerationParams).cells
        (generateMaze ⟨6, 12, seed, 30, 200, 6⟩ defaultGenerationParams).config
        (generateMaze ⟨6, 12, seed, 30, 200, 6⟩ defaultGenerationParams).exit).solvable = true := by
  refine ⟨?_, ?_, ?_⟩
  · apply genLoop_solvable
    show (bfsLoop (fallbackCells 2 4) 2 4 ⟨0, 2⟩ (2 * 4 + 1)
        ((List.range 4).map fun s => ((0 : Nat), s))
        (fun k => if k < 4 then some (-1) else none)).solvable = true
    decide
  · apply genLoop_solvable
    show (bfsLoop (fallbackCells 4 16) 4 16 ⟨0, 2⟩ (4 * 16 + 1)
        ((List.range 16).map fun s => ((0 : Nat), s))
        (fun k => if k < 16 then some (-1) else none)).solvable = true
    decide
  · apply genLoop_solvable
    show (bfsLoop (fallbackCells 6 12) 6 12 ⟨0, 2⟩ (6 * 12 + 1)
        ((List.range 12).map fun s => ((0 : Nat), s))
        (fun k => if k < 12 then some (-1) else none)).solvable = true
    decide

/-- Witness for C1 at the concrete seed 49. -/
theorem generateMaze_solvable_standardConfigs_witness :
    49 < 50 ∧
    ((solveMaze (generateMaze ⟨2, 4, 49, 30, 200, 6⟩ defaultGenerationParams).cells
        (generateMaze ⟨2, 4, 49, 30, 200, 6⟩ defaultGenerationParams).config
        (generateMaze ⟨2, 4, 49, 30, 200, 6⟩ defaultGenerationParams).exit).solvable = true ∧
     (solveMaze (generateMaze ⟨4, 16, 49, 30, 200, 6⟩ defaultGenerationParams).cells
        (generateMaze ⟨4, 16, 49, 30, 200, 6⟩ defaultGenerationParams).config
        (generateMaze ⟨4, 16, 49, 30, 200, 6⟩ defaultGenerationParams).exit).solvable = true ∧
     (solveMaze (generateMaze ⟨6, 12, 49, 30, 200, 6⟩ defaultGenerationParams).cells
        (generateMaze ⟨6, 12, 49, 30, 200, 6⟩ defaultGenerationParams).config
        (generateMaze ⟨6, 12, 49, 30, 200, 6⟩ defaultGenerationParams).exit).solvable = true) :=
  ⟨by decide, generateMaze_solvable_standardConfigs 49 (by decide)⟩

/-! ### C2: difficulty mapper clamping and rate limiting -/

/-- Clamping keeps a value inside `[lo, hi]`. -/
theorem clamp_mem (v lo hi : ℚ) (h : lo ≤ hi) :
    lo ≤ clamp v lo hi ∧ clamp v lo hi ≤ hi :=
  ⟨le_max_left _ _, max_le h (min_le_left _ _)⟩

/-- JS `Math.sign` has magnitude at most one. -/
theorem jsSign_abs_le_one (x : ℚ) : |jsSign x| ≤ 1 := by
  unfold jsSign
  split
  · norm_num
  · split
    · norm_num
    · norm_num

/-- The rate limiter moves at most `d` away from the previous value. -/
theorem rateLimited_dist (prev target d : ℚ) (hd : 0 ≤ d) :
    |rateLimited prev target d - prev| ≤ d := by
  unfold rateLimited
  split
  · next h => exact h
  · have he : prev + jsSign (target - prev) * d - prev = jsSign (target - prev) * d := by
      ring
    rw [he, abs_mul]
    calc |jsSign (target - prev)| * |d| ≤ 1 * |d| :=
          mul_le_mul_of_nonneg_right (jsSign_abs_le_one _) (abs_nonneg d)
      _ = d := by rw [one_mul, abs_of_nonneg hd]

/-- Clamping toward an interval containing `prev` never moves a value
further from `prev`. -/
theorem clamp_dist_le (v prev lo hi : ℚ) (h1 : lo ≤ prev) (h2 : prev ≤ hi) :
    |clamp v lo hi - prev| ≤ |v - prev| := by
  have ha := le_abs_self (v - prev)
  have hb := neg_abs_le (v - prev)
  unfold clamp
  rcases le_total v lo with hv | hv
  · rw [min_eq_right (le_trans hv (le_trans h1 h2)), max_eq_left hv,
      abs_of_nonpos (by linarith)]
    linarith
  · rcases le_total hi v with hv2 | hv2
    · rw [min_eq_left hv2, max_eq_right (le_trans h1 h2),
        abs_of_nonneg (by linarith)]
      linarith
    · rw [min_eq_right hv2, max_eq_right hv]

/-- Combined facts about one rate-limited-then-clamped parameter. -/
theorem mapped_field_props (prev target lo hi : ℚ) (hlohi : lo ≤ hi) :
    (lo ≤ clamp (rateLimited prev target MAX_DELTA) lo hi ∧
      clamp (rateLimited prev target MAX_DELTA) lo hi ≤ hi) ∧
    (lo ≤ prev → prev ≤ hi →
      |clamp (rateLimited prev target MAX_DELTA) lo hi - prev| ≤ MAX_DELTA) := by
  refine ⟨clamp_mem _ _ _ hlohi, fun h1 h2 => ?_⟩
  exact le_trans (clamp_dist_le _ _ _ _ h1 h2)
    (rateLimited_dist _ _ _ (by norm_num [MAX_DELTA]))

/-- C2, counterexample: the claim's rate-limit part fails as stated.  With
one attempt recorded, `avgTime = 100 > 60` selects `exitWidth = 2`; against
previous parameters with `exitWidth = 1` (a documented legal value) the
field changes by 1 in a single attempt, which exceeds the rate-limit
magnitude 0.1 — `exitWidth` is set directly from the profile, neither
rate-limited nor clamped. -/
theorem mapProfileToParams_rateLimit_counterexample :
    ¬ (|((mapProfileToParams ⟨0, 0, 0, 0, 0, 0, 100, 1⟩
          { defaultGenerationParams with exitWidth := 1 }).exitWidth : ℚ) -
        (({ defaultGenerationParams with exitWidth := 1 } :
          GenerationParams).exitWidth : ℚ)| ≤ MAX_DELTA) := by
  intro hcontr
  have hev : (mapProfileToParams ⟨0, 0, 0, 0, 0, 0, 100, 1⟩
      { defaultGenerationParams with exitWidth := 1 }).exitWidth = 2 := by
    simp only [mapProfileToParams]
    rw [if_neg (by norm_num)]
    norm_num
  rw [hev] at hcontr
  norm_num [MAX_DELTA] at hcontr

/-- C2, amended: for every profile with at least one attempt and every
previous parameter set, each of the six continuous output parameters lies
in its documented clamp range, and — whenever the corresponding previous
value itself lies in that range — changes by at most `MAX_DELTA = 0.1`;
`exitWidth` is always 1 or 2 and `exitOffset` is always -1, but these two
fields are set directly and are not rate-limited. -/
theorem mapProfileToParams_clamped_rateLimited (p : PlayerProfile)
    (prev : GenerationParams) (h : 1 ≤ p.attempts) :
    ((CLAMPS.wallDensity.lo ≤ (mapProfileToParams p prev).wallDensity ∧
        (mapProfileToParams p prev).wallDensity ≤ CLAMPS.wallDensity.hi) ∧
      (CLAMPS.branchiness.lo ≤ (mapProfileToParams p prev).branchiness ∧
        (mapProfileToParams p prev).branchiness ≤ CLAMPS.branchiness.hi) ∧
      (CLAMPS.corridorWidth.lo ≤ (mapProfileToParams p prev).corridorWidth ∧
        (mapProfileToParams p prev).corridorWidth ≤ CLAMPS.corridorWidth.hi) ∧
      (CLAMPS.radialDensity.lo ≤ (mapProfileToParams p prev).radialDensity ∧
        (mapProfileToParams p prev).radialDensity ≤ CLAMPS.radialDensity.hi) ∧
      (CLAMPS.decoyRate.lo ≤ (mapProfileToParams p prev).decoyRate ∧
        (mapProfileToParams p prev).decoyRate ≤ CLAMPS.decoyRate.hi) ∧
      (CLAMPS.pathLengthBias.lo ≤ (mapProfileToParams p prev).pathLengthBias ∧
        (mapProfileToParams p prev).pathLengthBias ≤ CLAMPS.pathLengthBias.hi)) ∧
    (1 ≤ (mapProfileToParams p prev).exitWidth ∧
      (mapProfileToParams p prev).exitWidth ≤ 2) ∧
    (mapProfileToParams p prev).exitOffset = -1 ∧
    ((CLAMPS.wallDensity.lo ≤ prev.wallDensity →
        prev.wallDensity ≤ CLAMPS.wallDensity.hi →
        |(mapProfileToParams p prev).wallDensity - prev.wallDensity| ≤ MAX_DELTA) ∧
      (CLAMPS.branchiness.lo ≤ prev.branchiness →
        prev.branchiness ≤ CLAMPS.branchiness.hi →
        |(mapProfileToParams p prev).branchiness - prev.branchiness| ≤ MAX_DELTA) ∧
      (CLAMPS.corridorWidth.lo ≤ prev.corridorWidth →
        prev.corridorWidth ≤ CLAMPS.corridorWidth.hi →
        |(mapProfileToParams p prev).corridorWidth - prev.corridorWidth| ≤ MAX_DELTA) ∧
      (CLAMPS.radialDensity.lo ≤ prev.radialDensity →
        prev.radialDensity ≤ CLAMPS.radialDensity.hi →
        |(mapProfileToParams p prev).radialDensity - prev.radialDensity| ≤ MAX_DELTA) ∧
      (CLAMPS.decoyRate.lo ≤ prev.decoyRate →
        prev.decoyRate ≤ CLAMPS.decoyRate.hi →
        |(mapProfileToParams p prev).decoyRate - prev.decoyRate| ≤ MAX_DELTA) ∧
      (CLAMPS.pathLengthBias.lo ≤ prev.pathLengthBias →
        prev.pathLengthBias ≤ CLAMPS.pathLengthBias.hi →
        |(mapProfileToParams p prev).pathLengthBias - prev.pathLengthBias| ≤ MAX_DELTA)) := by
  have hnot : ¬ p.attempts < 1 := by omega
  simp only [mapProfileToParams, if_neg hnot]
  refine ⟨⟨(mapped_field_props _ _ _ _ (by norm_num [CLAMPS])).1,
    (mapped_field_props _ _ _ _ (by norm_num [CLAMPS])).1,
    (mapped_field_props _ _ _ _ (by norm_num [CLAMPS])).1,
    (mapped_field_props _ _ _ _ (by norm_num [CLAMPS])).1,
    (mapped_field_props _ _ _ _ (by norm_num [CLAMPS])).1,
    (mapped_field_props _ _ _ _ (by norm_num [CLAMPS])).1⟩,
    ⟨?_, ?_⟩, trivial,
    (mapped_field_props _ _ _ _ (by norm_num [CLAMPS])).2,
    (mapped_field_props _ _ _ _ (by norm_num [CLAMPS])).2,
    (mapped_field_props _ _ _ _ (by norm_num [CLAMPS])).2,
    (mapped_field_props _ _ _ _ (by norm_num [CLAMPS])).2,
    (mapped_field_props _ _ _ _ (by norm_num [CLAMPS])).2,
    (mapped_field_props _ _ _ _ (by norm_num [CLAMPS])).2⟩
  · split
    · norm_num
    · norm_num
  · split
    · norm_num
    · norm_num

/-- Witness for the amended C2 at a concrete profile and the default
previous parameters. -/
theorem mapProfileToParams_clamped_rateLimited_witness :
    1 ≤ (⟨50, 0, 0, 2, 3, 0.4, 20, 1⟩ : PlayerProfile).attempts ∧
    CLAMPS.wallDensity.lo ≤ defaultGenerationParams.wallDensity ∧
    defaultGenerationParams.wallDensity ≤ CLAMPS.wallDensity.hi ∧
    (CLAMPS.wallDensity.lo ≤
        (mapProfileToParams ⟨50, 0, 0, 2, 3, 0.4, 20, 1⟩
          defaultGenerationParams).wallDensity ∧
      (mapProfileToParams ⟨50, 0, 0, 2, 3, 0.4, 20, 1⟩
          defaultGenerationParams).wallDensity ≤ CLAMPS.wallDensity.hi) ∧
    |(mapProfileToParams ⟨50, 0, 0, 2, 3, 0.4, 20, 1⟩
        defaultGenerationParams).wallDensity -
      defaultGenerationParams.wallDensity| ≤ MAX_DELTA := by
  have h1 : CLAMPS.wallDensity.lo ≤ defaultGenerationParams.wallDensity := by
    norm_num [CLAMPS, defaultGenerationParams]
  have h2 : defaultGenerationParams.wallDensity ≤ CLAMPS.wallDensity.hi := by
    norm_num [CLAMPS, defaultGenerationParams]
  refine ⟨by decide, h1, h2, ?_, ?_⟩
  · exact (mapProfileToParams_clamped_rateLimited ⟨50, 0, 0, 2, 3, 0.4, 20, 1⟩
      defaultGenerationParams (by decide)).1.1
  · exact (mapProfileToParams_clamped_rateLimited ⟨50, 0, 0, 2, 3, 0.4, 20, 1⟩
      defaultGenerationParams (by decide)).2.2.2.1 h1 h2

/-! ### C8: profile EMA update -/

/-- One EMA blend is a contraction toward the new sample: the distance
never increases, and strictly decreases while nonzero. -/
theorem ema_dist (x c : ℚ) :
    |ema x c - c| ≤ |x - c| ∧ (x ≠ c → |ema x c - c| < |x - c|) := by
  have hs : ema x c - c = (7 / 10) * (x - c) := by
    unfold ema EMA_ALPHA
    ring
  rw [hs, abs_mul, abs_of_nonneg (by norm_num : (0:ℚ) ≤ 7 / 10)]
  constructor
  · nlinarith [abs_nonneg (x - c)]
  · intro hne
    have hpos : 0 < |x - c| := abs_pos.mpr (sub_ne_zero.mpr hne)
    nlinarith

/-- C8: one `updateProfile` call on a fresh profile copies every snapshot
field exactly (and sets `attempts = 1`); on a profile with at least one
attempt, every tracked field is blended by EMA with weight
`EMA_ALPHA = 0.3` for the new value, so with a constant snapshot the
distance of each field to the snapshot value never increases and strictly
decreases while nonzero — monotone convergence. -/
theorem updateProfile_first_and_ema (p : PlayerProfile) (m : AttemptMetrics)
    (h : 1 ≤ p.attempts) :
    (updateProfile createProfile m =
      ⟨m.avgSpeed, m.idleRatio, m.riskRatio, m.collisionCount,
       m.directionChanges, m.exploration, m.totalTime, 1⟩) ∧
    (((updateProfile p m).avgSpeed =
        p.avgSpeed * (1 - EMA_ALPHA) + m.avgSpeed * EMA_ALPHA ∧
      |(updateProfile p m).avgSpeed - m.avgSpeed| ≤ |p.avgSpeed - m.avgSpeed| ∧
      (p.avgSpeed ≠ m.avgSpeed →
        |(updateProfile p m).avgSpeed - m.avgSpeed| < |p.avgSpeed - m.avgSpeed|)) ∧
     ((updateProfile p m).avgIdleRatio =
        p.avgIdleRatio * (1 - EMA_ALPHA) + m.idleRatio * EMA_ALPHA ∧
      |(updateProfile p m).avgIdleRatio - m.idleRatio| ≤ |p.avgIdleRatio - m.idleRatio| ∧
      (p.avgIdleRatio ≠ m.idleRatio →
        |(updateProfile p m).avgIdleRatio - m.idleRatio| < |p.avgIdleRatio - m.idleRatio|)) ∧
     ((updateProfile p m).avgRiskRatio =
        p.avgRiskRatio * (1 - EMA_ALPHA) + m.riskRatio * EMA_ALPHA ∧
      |(updateProfile p m).avgRiskRatio - m.riskRatio| ≤ |p.avgRiskRatio - m.riskRatio| ∧
      (p.avgRiskRatio ≠ m.riskRatio →
        |(updateProfile p m).avgRiskRatio - m.riskRatio| < |p.avgRiskRatio - m.riskRatio|)) ∧
     ((updateProfile p m).avgCollisions =
        p.avgCollisions * (1 - EMA_ALPHA) + m.collisionCount * EMA_ALPHA ∧
      |(updateProfile p m).avgCollisions - m.collisionCount| ≤
        |p.avgCollisions - m.collisionCount| ∧
      (p.avgCollisions ≠ m.collisionCount →
        |(updateProfile p m).avgCollisions - m.collisionCount| <
          |p.avgCollisions - m.collisionCount|)) ∧
     ((updateProfile p m).avgDirChanges =
        p.avgDirChanges * (1 - EMA_ALPHA) + m.directionChanges * EMA_ALPHA ∧
      |(updateProfile p m).avgDirChanges - m.directionChanges| ≤
        |p.avgDirChanges - m.directionChanges| ∧
      (p.avgDirChanges ≠ m.directionChanges →
        |(updateProfile p m).avgDirChanges - m.directionChanges| <
          |p.avgDirChanges - m.directionChanges|)) ∧
     ((updateProfile p m).avgExploration =
        p.avgExploration * (1 - EMA_ALPHA) + m.exploration * EMA_ALPHA ∧
      |(updateProfile p m).avgExploration - m.exploration| ≤
        |p.avgExploration - m.exploration| ∧
      (p.avgExploration ≠ m.exploration →
        |(updateProfile p m).avgExploration - m.exploration| <
          |p.avgExploration - m.exploration|)) ∧
     ((updateProfile p m).avgTime =
        p.avgTime * (1 - EMA_ALPHA) + m.totalTime * EMA_ALPHA ∧
      |(updateProfile p m).avgTime - m.totalTime| ≤ |p.avgTime - m.totalTime| ∧
      (p.avgTime ≠ m.totalTime →
        |(updateProfile p m).avgTime - m.totalTime| < |p.avgTime - m.totalTime|))) := by
  have hnot : ¬ (p.attempts + 1 = 1) := by omega
  refine ⟨rfl, ?_⟩
  simp only [updateProfile, if_neg hnot]
  exact ⟨⟨rfl, ema_dist _ _⟩, ⟨rfl, ema_dist _ _⟩, ⟨rfl, ema_dist _ _⟩,
    ⟨rfl, ema_dist _ _⟩, ⟨rfl, ema_dist _ _⟩, ⟨rfl, ema_dist _ _⟩,
    ⟨rfl, ema_dist _ _⟩⟩

/-- Witness for C8 at a concrete profile and snapshot. -/
theorem updateProfile_first_and_ema_witness :
    1 ≤ (⟨10, 1, 1, 1, 1, 1, 1, 2⟩ : PlayerProfile).attempts ∧
    (⟨10, 1, 1, 1, 1, 1, 1, 2⟩ : PlayerProfile).avgSpeed ≠
      (⟨30, 4, 0, 0, 0, 0, 0.5, true⟩ : AttemptMetrics).avgSpeed ∧
    |(updateProfile ⟨10, 1, 1, 1, 1, 1, 1, 2⟩
        ⟨30, 4, 0, 0, 0, 0, 0.5, true⟩).avgSpeed -
      (⟨30, 4, 0, 0, 0, 0, 0.5, true⟩ : AttemptMetrics).avgSpeed| <
      |(⟨10, 1, 1, 1, 1, 1, 1, 2⟩ : PlayerProfile).avgSpeed -
        (⟨30, 4, 0, 0, 0, 0, 0.5, true⟩ : AttemptMetrics).avgSpeed| := by
  refine ⟨by decide, by norm_num, ?_⟩
  exact (updateProfile_first_and_ema ⟨10, 1, 1, 1, 1, 1, 1, 2⟩
    ⟨30, 4, 0, 0, 0, 0, 0.5, true⟩ (by decide)).2.1.2.2 (by norm_num)

/-! ### C9: fixed-timestep scheduler -/

/-- The fixed step is positive. -/
theorem FIXED_DT_pos : 0 < FIXED_DT := by norm_num [FIXED_DT, PHYSICS_HZ]

/-- The drain loop of `updateTime`, given enough fuel, leaves a residual
accumulator in `[0, FIXED_DT)` equal to the input minus the ticks run
times the step. -/
theorem drainTicks_correct :
    ∀ fuel acc, 0 ≤ acc → (Int.floor (acc / FIXED_DT)).toNat < fuel →
      0 ≤ (drainTicks fuel acc).1 ∧ (drainTicks fuel acc).1 < FIXED_DT ∧
      (drainTicks fuel acc).1 = acc - (drainTicks fuel acc).2 * FIXED_DT := by
  intro fuel
  induction fuel with
  | zero => intro acc _ hflt; omega
  | succ n ih =>
    intro acc hacc hflt
    rw [drainTicks]
    split
    · next hge =>
      have hdt := FIXED_DT_pos
      have hacc' : 0 ≤ acc - FIXED_DT := by linarith
      have hdiv : (acc - FIXED_DT) / FIXED_DT = acc / FIXED_DT - 1 := by
        field_simp
      have hfl : Int.floor ((acc - FIXED_DT) / FIXED_DT) =
          Int.floor (acc / FIXED_DT) - 1 := by
        rw [hdiv]
        exact_mod_cast Int.floor_sub_int (acc / FIXED_DT) 1
      have hone : (1 : ℚ) ≤ acc / FIXED_DT := by
        rw [le_div_iff₀ hdt]
        linarith
      have hfl1 : 1 ≤ Int.floor (acc / FIXED_DT) := by
        exact_mod_cast Int.le_floor.mpr (by exact_mod_cast hone)
      have hflt' : (Int.floor ((acc - FIXED_DT) / FIXED_DT)).toNat < n := by
        rw [hfl]
        omega
      obtain ⟨h1, h2, h3⟩ := ih (acc - FIXED_DT) hacc' hflt'
      refine ⟨h1, h2, ?_⟩
      push_cast
      linarith
    · next hlt =>
      push_neg at hlt
      exact ⟨hacc, hlt, by simp⟩

/-- C9: for every call sequence of `updateTime` with non-decreasing
timestamps starting from a fresh time state (accumulator 0), each call
clamps the frame delta to `MAX_FRAME_TIME`, runs the physics tick some
number `n` of times each with exactly `FIXED_DT` (the callback result is
the n-fold iterate and elapsed grows by `n * FIXED_DT`), and leaves the
accumulator in `[0, FIXED_DT)` — equivalently the interpolation alpha is
in `[0, 1)` — after every call. -/
theorem updateTime_fixedStep_props {α : Type} (tick : ℚ → α → α) (now0 : ℚ)
    (nows : List ℚ) (a : α)
    (hchain : List.Chain' (· ≤ ·) (now0 :: nows)) :
    (∀ (s : TimeState) (now : ℚ) (b : α), 0 ≤ s.accumulator →
      s.lastTime ≤ now / 1000 →
      ∃ n : Nat,
        (updateTime s now tick b).2 = (tick FIXED_DT)^[n] b ∧
        (updateTime s now tick b).1.elapsed = s.elapsed + n * FIXED_DT ∧
        (updateTime s now tick b).1.accumulator =
          s.accumulator + min (now / 1000 - s.lastTime) MAX_FRAME_TIME -
            n * FIXED_DT ∧
        0 ≤ (updateTime s now tick b).1.accumulator ∧
        (updateTime s now tick b).1.accumulator < FIXED_DT ∧
        (updateTime s now tick b).1.alpha =
          (updateTime s now tick b).1.accumulator / FIXED_DT ∧
        0 ≤ (updateTime s now tick b).1.alpha ∧
        (updateTime s now tick b).1.alpha < 1) ∧
    (0 ≤ (runSchedule tick (createTimeState now0, a) nows).1.accumulator ∧
      (runSchedule tick (createTimeState now0, a) nows).1.accumulator < FIXED_DT) := by
  have hdt := FIXED_DT_pos
  have key : ∀ (s : TimeState) (now : ℚ) (b : α), 0 ≤ s.accumulator →
      s.lastTime ≤ now / 1000 →
      ∃ n : Nat,
        (updateTime s now tick b).2 = (tick FIXED_DT)^[n] b ∧
        (updateTime s now tick b).1.elapsed = s.elapsed + n * FIXED_DT ∧
        (updateTime s now tick b).1.accumulator =
          s.accumulator + min (now / 1000 - s.lastTime) MAX_FRAME_TIME -
            n * FIXED_DT ∧
        0 ≤ (updateTime s now tick b).1.accumulator ∧
        (updateTime s now tick b).1.accumulator < FIXED_DT ∧
        (updateTime s now tick b).1.alpha =
          (updateTime s now tick b).1.accumulator / FIXED_DT ∧
        0 ≤ (updateTime s now tick b).1.alpha ∧
        (updateTime s now tick b).1.alpha < 1 := by
    intro s now b hacc hmono
    have hframe : (if MAX_FRAME_TIME < now / 1000 - s.lastTime
        then MAX_FRAME_TIME else now / 1000 - s.lastTime) =
        min (now / 1000 - s.lastTime) MAX_FRAME_TIME := by
      rw [min_def]
      split
      · next hle => rw [if_neg (by linarith)]
      · next hgt => rw [if_pos (by linarith)]
    have hframe0 : 0 ≤ min (now / 1000 - s.lastTime) MAX_FRAME_TIME :=
      le_min (by linarith) (by norm_num [MAX_FRAME_TIME])
    have hacc0 : 0 ≤ s.accumulator + min (now / 1000 - s.lastTime) MAX_FRAME_TIME := by
      linarith
    obtain ⟨h1, h2, h3⟩ := drainTicks_correct
      (drainFuel (s.accumulator + min (now / 1000 - s.lastTime) MAX_FRAME_TIME))
      (s.accumulator + min (now / 1000 - s.lastTime) MAX_FRAME_TIME)
      hacc0 (by unfold drainFuel; omega)
    refine ⟨(drainTicks
        (drainFuel (s.accumulator + min (now / 1000 - s.lastTime) MAX_FRAME_TIME))
        (s.accumulator + min (now / 1000 - s.lastTime) MAX_FRAME_TIME)).2,
      ?_, ?_, ?_, ?_, ?_, ?_, ?_, ?_⟩
    · simp only [updateTime, hframe]
    · simp only [updateTime, hframe]
    · simp only [updateTime, hframe]
      linarith [h3]
    · simp only [updateTime, hframe]
      exact h1
    · simp only [updateTime, hframe]
      exact h2
    · simp only [updateTime, hframe]
    · simp only [updateTime, hframe]
      exact div_nonneg h1 (le_of_lt hdt)
    · simp only [updateTime, hframe]
      exact (div_lt_one hdt).mpr h2
  refine ⟨key, ?_⟩
  have main : ∀ (nows' : List ℚ) (s : TimeState) (b : α),
      0 ≤ s.accumulator → s.accumulator < FIXED_DT →
      List.Chain' (· ≤ ·) ((s.lastTime * 1000) :: nows') →
      0 ≤ (runSchedule tick (s, b) nows').1.accumulator ∧
        (runSchedule tick (s, b) nows').1.accumulator < FIXED_DT := by
    intro nows'
    induction nows' with
    | nil => intro s b h1 h2 _; exact ⟨h1, h2⟩
    | cons now rest ihr =>
      intro s b h1 h2 hch
      have hmono : s.lastTime ≤ now / 1000 := by
        have := (List.chain'_cons.mp hch).1
        linarith [this]
      obtain ⟨n, hn1, hn2, hn3, hn4, hn5, hn6, hn7, hn8⟩ := key s now b h1 hmono
      have hlast : (updateTime s now tick b).1.lastTime = now / 1000 := by
        simp only [updateTime]
      have hch' : List.Chain' (· ≤ ·)
          (((updateTime s now tick b).1.lastTime * 1000) :: rest) := by
        rw [hlast]
        rcases rest with _ | ⟨r, rs⟩
        · simp
        · refine List.chain'_cons.mpr
            ⟨?_, ((List.chain'_cons.mp hch).2 |> List.chain'_cons.mp).2⟩
          have hnr : now ≤ r := ((List.chain'_cons.mp hch).2 |> List.chain'_cons.mp).1
          linarith
      have := ihr (updateTime s now tick b).1 (updateTime s now tick b).2 hn4 hn5 hch'
      simpa [runSchedule] using this
  have hstart : List.Chain' (· ≤ ·)
      (((createTimeState now0).lastTime * 1000) :: nows) := by
    simp only [createTimeState]
    rcases nows with _ | ⟨r, rs⟩
    · simp
    · refine List.chain'_cons.mpr ⟨?_, (List.chain'_cons.mp hchain).2⟩
      have := (List.chain'_cons.mp hchain).1
      linarith
  exact main nows (createTimeState now0) a (by norm_num [createTimeState])
    (by norm_num [createTimeState]; exact hdt) hstart

/-- Witness for C9 on the frame timestamps 0ms, 16ms, 33ms. -/
theorem updateTime_fixedStep_props_witness :
    List.Chain' (· ≤ ·) [(0 : ℚ), 16, 33] ∧
    (0 ≤ (runSchedule (fun _ n => n + 1) (createTimeState 0, (0 : Nat))
        [16, 33]).1.accumulator ∧
      (runSchedule (fun _ n => n + 1) (createTimeState 0, (0 : Nat))
        [16, 33]).1.accumulator < FIXED_DT) := by
  have hch : List.Chain' (· ≤ ·) [(0 : ℚ), 16, 33] := by
    refine List.chain'_cons.mpr ⟨by norm_num, List.chain'_cons.mpr ⟨by norm_num, ?_⟩⟩
    simp
  exact ⟨hch, (updateTime_fixedStep_props (fun _ n => n + 1) 0 [16, 33] 0 hch).2⟩

/-! ### C3: circle-vs-segment collision test -/

/-- C3: `circleVsSegment` reports a hit exactly when the segment is
non-degenerate (`lenSq ≥ 1e-10`) and the distance from the ball center to
the closest point of the segment is strictly below the ball radius and not
approximately zero (`dist ≥ 1e-10`); on a hit the penetration is
`radius - dist` and the normal is the unit vector from the closest point
toward the ball center; otherwise the zero normal and zero penetration are
returned. -/
theorem circleVsSegment_hit_spec (b : Ball) (s : Segment) :
    ((circleVsSegment b s).hit = true ↔
      EPS ≤ segLenSq s ∧ segDist b s < b.radius ∧ EPS ≤ segDist b s) ∧
    ((circleVsSegment b s).hit = true →
      (circleVsSegment b s).penetration = b.radius - segDist b s ∧
      (circleVsSegment b s).normal =
        ((b.x - (segClosestPoint b s).1) / segDist b s,
         (b.y - (segClosestPoint b s).2) / segDist b s) ∧
      (circleVsSegment b s).normal.1 * (circleVsSegment b s).normal.1 +
        (circleVsSegment b s).normal.2 * (circleVsSegment b s).normal.2 = 1) ∧
    ((circleVsSegment b s).hit = false →
      (circleVsSegment b s).normal = (0, 0) ∧
      (circleVsSegment b s).penetration = 0) := by
  unfold circleVsSegment
  split
  · next h1 =>
    refine ⟨?_, fun hcontr => by simp at hcontr, fun _ => ⟨rfl, rfl⟩⟩
    simp only [Bool.false_eq_true, false_iff]
    rintro ⟨hle, -, -⟩
    linarith
  · next h1 =>
    push_neg at h1
    split
    · next h2 =>
      refine ⟨?_, fun hcontr => by simp at hcontr, fun _ => ⟨rfl, rfl⟩⟩
      simp only [Bool.false_eq_true, false_iff]
      rintro ⟨-, hlt, hge⟩
      rcases h2 with h2 | h2
      · linarith
      · linarith
    · next h2 =>
      push_neg at h2
      obtain ⟨hrad, heps⟩ := h2
      have hepspos : (0:ℝ) < EPS := by norm_num [EPS]
      have hdpos : 0 < segDist b s := by linarith
      have hA : (0:ℝ) ≤
          (b.x - (segClosestPoint b s).1) * (b.x - (segClosestPoint b s).1) +
          (b.y - (segClosestPoint b s).2) * (b.y - (segClosestPoint b s).2) :=
        add_nonneg (mul_self_nonneg _) (mul_self_nonneg _)
      have hd2 : segDist b s * segDist b s =
          (b.x - (segClosestPoint b s).1) * (b.x - (segClosestPoint b s).1) +
          (b.y - (segClosestPoint b s).2) * (b.y - (segClosestPoint b s).2) := by
        unfold segDist
        exact Real.mul_self_sqrt hA
      refine ⟨by simp [h1, hrad, heps], fun _ => ⟨rfl, rfl, ?_⟩,
        fun hcontr => by simp at hcontr⟩
      field_simp
      linear_combination -hd2

/-- Witness for C3: a ball of radius 4 centered 3 units above the midpoint
of a horizontal segment hits it with penetration exactly 1. -/
theorem circleVsSegment_hit_spec_witness :
    (circleVsSegment ⟨1, 3, 0, 0, 4⟩ ⟨0, 0, 2, 0⟩).hit = true ∧
    (circleVsSegment ⟨1, 3, 0, 0, 4⟩ ⟨0, 0, 2, 0⟩).penetration = 1 := by
  have hT : segClosestT ⟨1, 3, 0, 0, 4⟩ ⟨0, 0, 2, 0⟩ = 1 / 2 := by
    unfold segClosestT segLenSq
    norm_num
  have hP : segClosestPoint ⟨1, 3, 0, 0, 4⟩ ⟨0, 0, 2, 0⟩ = (1, 0) := by
    unfold segClosestPoint
    rw [hT]
    norm_num
  have hD : segDist ⟨1, 3, 0, 0, 4⟩ ⟨0, 0, 2, 0⟩ = 3 := by
    unfold segDist
    rw [hP]
    norm_num
    rw [show (9 : ℝ) = 3 ^ 2 by norm_num]
    exact Real.sqrt_sq (by norm_num)
  have hL : segLenSq (⟨0, 0, 2, 0⟩ : Segment) = 4 := by
    unfold segLenSq
    norm_num
  obtain ⟨hiff, hhit, -⟩ := circleVsSegment_hit_spec ⟨1, 3, 0, 0, 4⟩ ⟨0, 0, 2, 0⟩
  have h1 : (circleVsSegment ⟨1, 3, 0, 0, 4⟩ ⟨0, 0, 2, 0⟩).hit = true := by
    refine hiff.mpr ⟨?_, ?_, ?_⟩
    · rw [hL]; norm_num [EPS]
    · rw [hD]; norm_num
    · rw [hD]; norm_num [EPS]
  refine ⟨h1, ?_⟩
  rw [(hhit h1).1, hD]
  norm_num

/-! ### C4: ball integration and the speed cap -/

/-- C4: `integrateBall` applies gravity `(G sin θ, G cos θ)` scaled by
`dt`, then friction, then the speed cap, and only then moves the position
by the final velocity times `dt`; the factor `scale` is positive, at most
one, and chosen so that the resulting speed never exceeds
`MAX_SPEED = 800`. -/
theorem integrateBall_speed_capped (b : Ball) (dt mazeAngle : ℝ)
    (hdt : 0 ≤ dt) :
    ballSpeed (integrateBall b dt mazeAngle) ≤ MAX_SPEED ∧
    (integrateBall b dt mazeAngle).x =
      b.x + (integrateBall b dt mazeAngle).vx * dt ∧
    (integrateBall b dt mazeAngle).y =
      b.y + (integrateBall b dt mazeAngle).vy * dt ∧
    (∃ scale : ℝ, 0 < scale ∧ scale ≤ 1 ∧
      (integrateBall b dt mazeAngle).vx =
        (b.vx + GRAVITY * Real.sin mazeAngle * dt) * FRICTION * scale ∧
      (integrateBall b dt mazeAngle).vy =
        (b.vy + GRAVITY * Real.cos mazeAngle * dt) * FRICTION * scale) := by
  have hM : (0:ℝ) < MAX_SPEED := by norm_num [MAX_SPEED]
  simp only [integrateBall, ballSpeed]
  set vx1 := (b.vx + GRAVITY * Real.sin mazeAngle * dt) * FRICTION with hvx1
  set vy1 := (b.vy + GRAVITY * Real.cos mazeAngle * dt) * FRICTION with hvy1
  set sp := Real.sqrt (vx1 * vx1 + vy1 * vy1) with hsp
  have hsp0 : 0 ≤ sp := Real.sqrt_nonneg _
  split
  · next hgt =>
    have hsppos : 0 < sp := lt_trans hM hgt
    have hs : Real.sqrt (vx1 * (MAX_SPEED / sp) * (vx1 * (MAX_SPEED / sp)) +
        vy1 * (MAX_SPEED / sp) * (vy1 * (MAX_SPEED / sp))) = MAX_SPEED := by
      have he : vx1 * (MAX_SPEED / sp) * (vx1 * (MAX_SPEED / sp)) +
          vy1 * (MAX_SPEED / sp) * (vy1 * (MAX_SPEED / sp)) =
          (MAX_SPEED / sp) ^ 2 * (vx1 * vx1 + vy1 * vy1) := by ring
      rw [he, Real.sqrt_mul (sq_nonneg _), Real.sqrt_sq_eq_abs,
        abs_of_pos (div_pos hM hsppos), ← hsp]
      field_simp
    refine ⟨le_of_eq hs, by ring, by ring, MAX_SPEED / sp, div_pos hM hsppos,
      ?_, rfl, rfl⟩
    rw [div_le_one hsppos]
    exact le_of_lt hgt
  · next hle =>
    push_neg at hle
    refine ⟨?_, by ring, by ring, 1, one_pos, le_refl 1, by ring, by ring⟩
    simpa using hle

/-- Witness for C4 at a resting ball, `dt = 0`, angle 0. -/
theorem integrateBall_speed_capped_witness :
    (0 : ℝ) ≤ 0 ∧ ballSpeed (integrateBall ⟨0, 0, 0, 0, 1⟩ 0 0) ≤ MAX_SPEED :=
  ⟨le_refl 0, (integrateBall_speed_capped ⟨0, 0, 0, 0, 1⟩ 0 0 (le_refl 0)).1⟩

/-! ### C10: bounce response never increases the speed -/

/-- C10: for a unit normal and nonnegative penetration, `bounceBall` moves
the position out of the wall by `penetration` along the normal, never
increases the speed (restitution `0.4 ≤ 1`), and leaves the velocity
entirely unchanged when the ball is not moving into the wall
(`v · n ≥ 0`). -/
theorem bounceBall_no_speed_gain (b : Ball) (n : ℝ × ℝ) (p : ℝ)
    (hn : n.1 * n.1 + n.2 * n.2 = 1) (hp : 0 ≤ p) :
    ballSpeed (bounceBall b n p) ≤ ballSpeed b ∧
    (bounceBall b n p).x = b.x + n.1 * p ∧
    (bounceBall b n p).y = b.y + n.2 * p ∧
    (0 ≤ b.vx * n.1 + b.vy * n.2 →
      (bounceBall b n p).vx = b.vx ∧ (bounceBall b n p).vy = b.vy) := by
  simp only [bounceBall, ballSpeed]
  split
  · next hd =>
    refine ⟨?_, rfl, rfl, fun hcontr => absurd hd (not_lt.mpr hcontr)⟩
    apply Real.sqrt_le_sqrt
    have key : (b.vx - (1 + RESTITUTION) * (b.vx * n.1 + b.vy * n.2) * n.1) *
          (b.vx - (1 + RESTITUTION) * (b.vx * n.1 + b.vy * n.2) * n.1) +
        (b.vy - (1 + RESTITUTION) * (b.vx * n.1 + b.vy * n.2) * n.2) *
          (b.vy - (1 + RESTITUTION) * (b.vx * n.1 + b.vy * n.2) * n.2) =
        b.vx * b.vx + b.vy * b.vy -
          (2 * (1 + RESTITUTION) - (1 + RESTITUTION) ^ 2) *
            ((b.vx * n.1 + b.vy * n.2) * (b.vx * n.1 + b.vy * n.2)) := by
      linear_combination ((1 + RESTITUTION) * (b.vx * n.1 + b.vy * n.2)) ^ 2 * hn
    rw [key]
    have hcoef : 0 < 2 * (1 + RESTITUTION) - (1 + RESTITUTION) ^ 2 := by
      norm_num [RESTITUTION]
    nlinarith [mul_self_nonneg (b.vx * n.1 + b.vy * n.2)]
  · next hd =>
    exact ⟨le_refl _, rfl, rfl, fun _ => ⟨rfl, rfl⟩⟩

/-- Witness for C10: a ball moving straight into a horizontal wall at speed
5 leaves no faster than it arrived. -/
theorem bounceBall_no_speed_gain_witness :
    ((0 : ℝ) * 0 + 1 * 1 = 1) ∧ (0 : ℝ) ≤ 1 ∧
    ballSpeed (bounceBall ⟨0, 0, 0, -5, 1⟩ (0, 1) 1) ≤
      ballSpeed ⟨0, 0, 0, -5, 1⟩ :=
  ⟨by norm_num, by norm_num,
    (bounceBall_no_speed_gain ⟨0, 0, 0, -5, 1⟩ (0, 1) 1 (by norm_num)
      (by norm_num)).1⟩

/-! ### Grid lookup lemmas (shared by the generator invariants) -/

/-- Reading `wallInner` after `setWallInner`. -/
theorem setWallInner_inner (g : Grid) (r s : Nat) (b : Bool) (r' s' : Nat) :
    ((setWallInner g r s b) r' s').wallInner =
      if r' = r ∧ s' = s then b else (g r' s').wallInner := by
  unfold setWallInner updCell
  split
  · next h => rfl
  · rfl

/-- `setWallInner` does not change `wallOuter`. -/
theorem setWallInner_outer (g : Grid) (r s : Nat) (b : Bool) (r' s' : Nat) :
    ((setWallInner g r s b) r' s').wallOuter = (g r' s').wallOuter := by
  unfold setWallInner updCell
  split
  · next h => rw [h.1, h.2]
  · rfl

/-- `setWallInner` does not change `wallCW`. -/
theorem setWallInner_cw (g : Grid) (r s : Nat) (b : Bool) (r' s' : Nat) :
    ((setWallInner g r s b) r' s').wallCW = (g r' s').wallCW := by
  unfold setWallInner updCell
  split
  · next h => rw [h.1, h.2]
  · rfl

/-- `setWallInner` does not change `wallCCW`. -/
theorem setWallInner_ccw (g : Grid) (r s : Nat) (b : Bool) (r' s' : Nat) :
    ((setWallInner g r s b) r' s').wallCCW = (g r' s').wallCCW := by
  unfold setWallInner updCell
  split
  · next h => rw [h.1, h.2]
  · rfl

/-- Reading `wallOuter` after `setWallOuter`. -/
theorem setWallOuter_outer (g : Grid) (r s : Nat) (b : Bool) (r' s' : Nat) :
    ((setWallOuter g r s b) r' s').wallOuter =
      if r' = r ∧ s' = s then b else (g r' s').wallOuter := by
  unfold setWallOuter updCell
  split
  · next h => rfl
  · rfl

/-- `setWallOuter` does not change `wallInner`. -/
theorem setWallOuter_inner (g : Grid) (r s : Nat) (b : Bool) (r' s' : Nat) :
    ((setWallOuter g r s b) r' s').wallInner = (g r' s').wallInner := by
  unfold setWallOuter updCell
  split
  · next h => rw [h.1, h.2]
  · rfl

/-- `setWallOuter` does not change `wallCW`. -/
theorem setWallOuter_cw (g : Grid) (r s : Nat) (b : Bool) (r' s' : Nat) :
    ((setWallOuter g r s b) r' s').wallCW = (g r' s').wallCW := by
  unfold setWallOuter updCell
  split
  · next h => rw [h.1, h.2]
  · rfl

/-- `setWallOuter` does not change `wallCCW`. -/
theorem setWallOuter_ccw (g : Grid) (r s : Nat) (b : Bool) (r' s' : Nat) :
    ((setWallOuter g r s b) r' s').wallCCW = (g r' s').wallCCW := by
  unfold setWallOuter updCell
  split
  · next h => rw [h.1, h.2]
  · rfl

/-- Reading `wallCW` after `setWallCW`. -/
theorem setWallCW_cw (g : Grid) (r s : Nat) (b : Bool) (r' s' : Nat) :
    ((setWallCW g r s b) r' s').wallCW =
      if r' = r ∧ s' = s then b else (g r' s').wallCW := by
  unfold setWallCW updCell
  split
  · next h => rfl
  · rfl

/-- `setWallCW` does not change `wallInner`. -/
theorem setWallCW_inner (g : Grid) (r s : Nat) (b : Bool) (r' s' : Nat) :
    ((setWallCW g r s b) r' s').wallInner = (g r' s').wallInner := by
  unfold setWallCW updCell
  split
  · next h => rw [h.1, h.2]
  · rfl

/-- `setWallCW` does not change `wallOuter`. -/
theorem setWallCW_outer (g : Grid) (r s : Nat) (b : Bool) (r' s' : Nat) :
    ((setWallCW g r s b) r' s').wallOuter = (g r' s').wallOuter := by
  unfold setWallCW updCell
  split
  · next h => rw [h.1, h.2]
  · rfl

/-- `setWallCW` does not change `wallCCW`. -/
theorem setWallCW_ccw (g : Grid) (r s : Nat) (b : Bool) (r' s' : Nat) :
    ((setWallCW g r s b) r' s').wallCCW = (g r' s').wallCCW := by
  unfold setWallCW updCell
  split
  · next h => rw [h.1, h.2]
  · rfl

/-- Reading `wallCCW` after `setWallCCW`. -/
theorem setWallCCW_ccw (g : Grid) (r s : Nat) (b : Bool) (r' s' : Nat) :
    ((setWallCCW g r s b) r' s').wallCCW =
      if r' = r ∧ s' = s then b else (g r' s').wallCCW := by
  unfold setWallCCW updCell
  split
  · next h => rfl
  · rfl

/-- `setWallCCW` does not change `wallInner`. -/
theorem setWallCCW_inner (g : Grid) (r s : Nat) (b : Bool) (r' s' : Nat) :
    ((setWallCCW g r s b) r' s').wallInner = (g r' s').wallInner := by
  unfold setWallCCW updCell
  split
  · next h => rw [h.1, h.2]
  · rfl

/-- `setWallCCW` does not change `wallOuter`. -/
theorem setWallCCW_outer (g : Grid) (r s : Nat) (b : Bool) (r' s' : Nat) :
    ((setWallCCW g r s b) r' s').wallOuter = (g r' s').wallOuter := by
  unfold setWallCCW updCell
  split
  · next h => rw [h.1, h.2]
  · rfl

/-- `setWallCCW` does not change `wallCW`. -/
theorem setWallCCW_cw (g : Grid) (r s : Nat) (b : Bool) (r' s' : Nat) :
    ((setWallCCW g r s b) r' s').wallCW = (g r' s').wallCW := by
  unfold setWallCCW updCell
  split
  · next h => rw [h.1, h.2]
  · rfl

/-! ### C5: the exit sector's outer walls are cleared -/

/-- Clearing an outer wall keeps every already-cleared outer wall clear. -/
theorem setWallOuter_false_keep (g : Grid) (r s r' s' : Nat)
    (h : (g r' s').wallOuter = false) :
    ((setWallOuter g r s false) r' s').wallOuter = false := by
  rw [setWallOuter_outer]
  split
  · rfl
  · exact h

/-- After the clearing loop of `placeExit`, every covered slice of the
outer ring has its outer wall clear. -/
theorem placeExit_fold_clears (rings slices start : Nat) :
    ∀ (n : Nat) (g : Grid) (i : Nat), i < n →
      (((List.range n).foldl
          (fun acc j => setWallOuter acc (rings - 1) ((start + j) % slices) false)
          g) (rings - 1) ((start + i) % slices)).wallOuter = false := by
  intro n
  induction n with
  | zero => intro g i hi; omega
  | succ k ih =>
    intro g i hi
    rw [List.range_succ, List.foldl_append, List.foldl_cons, List.foldl_nil]
    rcases Nat.lt_succ_iff_lt_or_eq.mp hi with h | h
    · exact setWallOuter_false_keep _ _ _ _ _ (ih g i h)
    · subst h
      rw [setWallOuter_outer, if_pos ⟨rfl, rfl⟩]

/-- `ensurePathToExit` never touches an outer wall of the outermost ring
(its loop runs over rings strictly below `rings - 1`). -/
theorem ensurePath_outer_ring_wallOuter (cfg : MazeConfig) (exit : ExitSector)
    (g : Grid) (s : Nat) :
    ((ensurePathToExit g cfg exit) (cfg.rings - 1) s).wallOuter =
      (g (cfg.rings - 1) s).wallOuter := by
  unfold ensurePathToExit
  have key : ∀ (l : List Nat) (g0 : Grid), (∀ r ∈ l, r < cfg.rings - 1) →
      ((l.foldl (fun acc r =>
          if (acc r exit.sliceStart).wallOuter = true ∧
              (acc (r + 1) exit.sliceStart).wallInner = true then
            setWallInner (setWallOuter acc r exit.sliceStart false)
              (r + 1) exit.sliceStart false
          else acc) g0) (cfg.rings - 1) s).wallOuter =
        (g0 (cfg.rings - 1) s).wallOuter := by
    intro l
    induction l with
    | nil => intro g0 _; rfl
    | cons r rest ihl =>
      intro g0 hmem
      rw [List.foldl_cons]
      rw [ihl _ (fun x hx => hmem x (List.mem_cons_of_mem _ hx))]
      split
      · next hcond =>
        rw [setWallInner_outer, setWallOuter_outer]
        have hr : r < cfg.rings - 1 := hmem r (List.mem_cons_self r rest)
        rw [if_neg]
        rintro ⟨h1, -⟩
        omega
      · rfl
  exact key _ g (fun r hr => List.mem_range.mp hr)

/-- After `placeExit` followed by `ensurePathToExit` — the final two grid
transformations of a generation attempt — every covered exit slice has a
clear outer wall. -/
theorem attempt_exit_cleared (cfg : MazeConfig) (params : GenerationParams)
    (g : Grid) (st : RNGState) :
    ∀ i < (placeExit g cfg params st).2.1.sliceCount,
      ((ensurePathToExit (placeExit g cfg params st).1 cfg
          (placeExit g cfg params st).2.1) (cfg.rings - 1)
        (((placeExit g cfg params st).2.1.sliceStart + i) %
          cfg.slices)).wallOuter = false := by
  intro i hi
  rw [ensurePath_outer_ring_wallOuter]
  exact placeExit_fold_clears cfg.rings cfg.slices _ _ g i hi

/-- The fallback maze also has the outer walls of its two-slice exit
sector clear. -/
theorem fallback_exit_cleared (cfg : MazeConfig) (params : GenerationParams)
    (hs : 1 ≤ cfg.slices) :
    ∀ i < (generateFallbackMaze cfg params).exit.sliceCount,
      ((generateFallbackMaze cfg params).cells (cfg.rings - 1)
        (((generateFallbackMaze cfg params).exit.sliceStart + i) %
          cfg.slices)).wallOuter = false := by
  intro i hi
  show ((fallbackCells cfg.rings cfg.slices) (cfg.rings - 1)
    ((0 + i) % cfg.slices)).wallOuter = false
  unfold fallbackCells
  rw [setWallOuter_outer]
  by_cases hm : (0 + i) % cfg.slices = 1
  · rw [if_pos ⟨rfl, hm⟩]
  · rw [if_neg (by rintro ⟨-, h⟩; exact hm h), setWallOuter_outer]
    have hi2 : i < 2 := hi
    have hm0 : (0 + i) % cfg.slices = 0 := by
      interval_cases i
      · simp
      · rcases Nat.lt_or_ge cfg.slices 2 with h2 | h2
        · have : cfg.slices = 1 := by omega
          simp [this]
        · exfalso
          exact hm (by simpa using Nat.mod_eq_of_lt (by omega : 1 < cfg.slices))
    rw [if_pos ⟨rfl, hm0⟩]

/-- C5: in the maze returned by `generateMaze` — whether a carved maze or
the fallback — every slice covered by the exit sector (the `sliceCount`
slices starting at `sliceStart`, modulo `slices`) has its outer wall
cleared on the outermost ring. -/
theorem generateMaze_exit_cleared (cfg : MazeConfig) (params : GenerationParams)
    (hr : 1 ≤ cfg.rings) (hs : 1 ≤ cfg.slices) :
    ∀ i < (generateMaze cfg params).exit.sliceCount,
      ((generateMaze cfg params).cells (cfg.rings - 1)
        (((generateMaze cfg params).exit.sliceStart + i) %
          cfg.slices)).wallOuter = false := by
  have main : ∀ fuel seed, ∀ i < (genLoop cfg params fuel seed).exit.sliceCount,
      ((genLoop cfg params fuel seed).cells (cfg.rings - 1)
        (((genLoop cfg params fuel seed).exit.sliceStart + i) %
          cfg.slices)).wallOuter = false := by
    intro fuel
    induction fuel with
    | zero => intro seed; exact fallback_exit_cleared cfg params hs
    | succ n ihf =>
      intro seed
      rw [genLoop]
      split
      · exact ihf (seed + 1)
      · split
        · next hsol =>
          intro i hi
          exact attempt_exit_cleared cfg params _ _ i hi
        · exact ihf (seed + 1)
  exact main MAX_REGEN_ATTEMPTS cfg.seed

/-- Witness for C5 at a concrete one-ring four-slice config. -/
theorem generateMaze_exit_cleared_witness :
    1 ≤ (⟨1, 4, 0, 30, 200, 6⟩ : MazeConfig).rings ∧
    1 ≤ (⟨1, 4, 0, 30, 200, 6⟩ : MazeConfig).slices ∧
    (∀ i < (generateMaze ⟨1, 4, 0, 30, 200, 6⟩ defaultGenerationParams).exit.sliceCount,
      ((generateMaze ⟨1, 4, 0, 30, 200, 6⟩ defaultGenerationParams).cells
        ((⟨1, 4, 0, 30, 200, 6⟩ : MazeConfig).rings - 1)
        (((generateMaze ⟨1, 4, 0, 30, 200, 6⟩ defaultGenerationParams).exit.sliceStart + i) %
          (⟨1, 4, 0, 30, 200, 6⟩ : MazeConfig).slices)).wallOuter = false) :=
  ⟨by decide, by decide,
    generateMaze_exit_cleared ⟨1, 4, 0, 30, 200, 6⟩ defaultGenerationParams
      (by decide) (by decide)⟩

/-! ### C6: shared wall flags always agree -/

/-- Successor modulo `n` is injective below `n`. -/
theorem succ_mod_inj (n s t : Nat) (hs : s < n) (ht : t < n)
    (h : (s + 1) % n = (t + 1) % n) : s = t := by
  rcases Nat.lt_or_ge (s + 1) n with h1 | h1
  · rw [Nat.mod_eq_of_lt h1] at h
    rcases Nat.lt_or_ge (t + 1) n with h2 | h2
    · rw [Nat.mod_eq_of_lt h2] at h
      omega
    · have ht1 : t + 1 = n := by omega
      rw [ht1, Nat.mod_self] at h
      omega
  · have hs1 : s + 1 = n := by omega
    rw [hs1, Nat.mod_self] at h
    rcases Nat.lt_or_ge (t + 1) n with h2 | h2
    · rw [Nat.mod_eq_of_lt h2] at h
      omega
    · omega

/-- The slicewise predecessor followed by the successor is the identity. -/
theorem mod_pred_succ (n s : Nat) (h : s < n) :
    ((s + n - 1) % n + 1) % n = s := by
  rcases Nat.eq_zero_or_pos s with h0 | h0
  · subst h0
    have hn : 1 ≤ n := by omega
    rw [Nat.zero_add, Nat.mod_eq_of_lt (by omega : n - 1 < n)]
    simp [Nat.sub_add_cancel hn]
  · have he : s + n - 1 = (s - 1) + n := by omega
    rw [he, Nat.add_mod_right, Nat.mod_eq_of_lt (by omega : s - 1 < n)]
    have : s - 1 + 1 = s := by omega
    rw [this, Nat.mod_eq_of_lt h]

/-- The slicewise successor followed by the predecessor is the identity. -/
theorem mod_succ_pred (n s : Nat) (h : s < n) :
    ((s + 1) % n + n - 1) % n = s := by
  rcases Nat.lt_or_ge (s + 1) n with h1 | h1
  · rw [Nat.mod_eq_of_lt h1]
    have he : s + 1 + n - 1 = s + n := by omega
    rw [he, Nat.add_mod_right, Nat.mod_eq_of_lt h]
  · have hs1 : s + 1 = n := by omega
    rw [hs1, Nat.mod_self, Nat.zero_add, Nat.mod_eq_of_lt (by omega : n - 1 < n)]
    omega

/-- Clearing a cw/ccw wall pair preserves the pairing invariant. -/
theorem paired_clearPairCW (g : Grid) (rings slices r s : Nat)
    (hs : s < slices) (hp : pairedWalls g rings slices) :
    pairedWalls (clearPairCW g slices r s) rings slices := by
  intro r' s' hr' hs'
  obtain ⟨hcw, hout⟩ := hp r' s' hr' hs'
  unfold clearPairCW
  refine ⟨?_, fun hlt => ?_⟩
  · rw [setWallCCW_cw, setWallCW_cw, setWallCCW_ccw, setWallCW_ccw]
    by_cases hmatch : r' = r ∧ s' = s
    · rw [if_pos hmatch, if_pos ⟨hmatch.1, by rw [hmatch.2]⟩]
    · rw [if_neg hmatch, if_neg ?_]
      · exact hcw
      · rintro ⟨h1, h2⟩
        exact hmatch ⟨h1, succ_mod_inj _ _ _ hs' hs h2⟩
  · rw [setWallCCW_outer, setWallCW_outer, setWallCCW_inner, setWallCW_inner]
    exact hout hlt

/-- Clearing an outer/inner wall pair (outer side first, as in the `outer`
case of `removeWall`, `ensurePathToExit` and the fallback) preserves the
pairing invariant. -/
theorem paired_clearPairOuter (g : Grid) (rings slices r s : Nat)
    (hp : pairedWalls g rings slices) :
    pairedWalls (setWallInner (setWallOuter g r s false) (r + 1) s false)
      rings slices := by
  intro r' s' hr' hs'
  obtain ⟨hcw, hout⟩ := hp r' s' hr' hs'
  refine ⟨?_, fun hlt => ?_⟩
  · rw [setWallInner_cw, setWallOuter_cw, setWallInner_ccw, setWallOuter_ccw]
    exact hcw
  · rw [setWallInner_outer, setWallOuter_outer, setWallInner_inner,
      setWallOuter_inner]
    by_cases hmatch : r' = r ∧ s' = s
    · rw [if_pos hmatch, if_pos ⟨by rw [hmatch.1], hmatch.2⟩]
    · rw [if_neg hmatch, if_neg ?_]
      · exact hout hlt
      · rintro ⟨h1, h2⟩
        exact hmatch ⟨by omega, h2⟩

/-- Clearing an inner/outer wall pair (inner side first, as in the `inner`
case of `removeWall`) preserves the pairing invariant. -/
theorem paired_clearPairInner (g : Grid) (rings slices r s : Nat)
    (hr : 0 < r) (hp : pairedWalls g rings slices) :
    pairedWalls (setWallOuter (setWallInner g r s false) (r - 1) s false)
      rings slices := by
  intro r' s' hr' hs'
  obtain ⟨hcw, hout⟩ := hp r' s' hr' hs'
  refine ⟨?_, fun hlt => ?_⟩
  · rw [setWallOuter_cw, setWallInner_cw, setWallOuter_ccw, setWallInner_ccw]
    exact hcw
  · rw [setWallOuter_outer, setWallInner_outer, setWallOuter_inner,
      setWallInner_inner]
    by_cases hmatch : r' = r - 1 ∧ s' = s
    · rw [if_pos hmatch, if_pos ⟨by omega, hmatch.2⟩]
    · rw [if_neg hmatch, if_neg ?_]
      · exact hout hlt
      · rintro ⟨h1, h2⟩
        exact hmatch ⟨by omega, h2⟩

/-- Clearing a ccw/cw wall pair (ccw side first, as in the `ccw` case of
`removeWall`) preserves the pairing invariant. -/
theorem paired_clearPairCCW (g : Grid) (rings slices r s : Nat)
    (hs : s < slices) (hp : pairedWalls g rings slices) :
    pairedWalls (setWallCW (setWallCCW g r s false) r
      ((s + slices - 1) % slices) false) rings slices := by
  intro r' s' hr' hs'
  obtain ⟨hcw, hout⟩ := hp r' s' hr' hs'
  refine ⟨?_, fun hlt => ?_⟩
  · rw [setWallCW_cw, setWallCCW_cw, setWallCW_ccw, setWallCCW_ccw]
    by_cases hmatch : r' = r ∧ s' = (s + slices - 1) % slices
    · rw [if_pos hmatch,
        if_pos ⟨hmatch.1, by rw [hmatch.2]; exact mod_pred_succ _ _ hs⟩]
    · rw [if_neg hmatch, if_neg ?_]
      · exact hcw
      · rintro ⟨h1, h2⟩
        refine hmatch ⟨h1, ?_⟩
        have := mod_succ_pred slices s' hs'
        rw [h2] at this
        omega
  · rw [setWallCW_outer, setWallCCW_outer, setWallCW_inner, setWallCCW_inner]
    exact hout hlt

/-- A ring-0 inner wall has no paired neighbor, so clearing it preserves
the pairing invariant (the entry-hole step). -/
theorem paired_setWallInner0 (g : Grid) (rings slices s : Nat)
    (hp : pairedWalls g rings slices) :
    pairedWalls (setWallInner g 0 s false) rings slices := by
  intro r' s' hr' hs'
  obtain ⟨hcw, hout⟩ := hp r' s' hr' hs'
  refine ⟨?_, fun hlt => ?_⟩
  · rw [setWallInner_cw, setWallInner_ccw]
    exact hcw
  · rw [setWallInner_outer, setWallInner_inner]
    rw [if_neg (by rintro ⟨h1, -⟩; omega)]
    exact hout hlt

/-- An outermost-ring outer wall has no paired neighbor, so clearing it
preserves the pairing invariant (the exit placement step). -/
theorem paired_setWallOuterLast (g : Grid) (rings slices s : Nat)
    (hp : pairedWalls g rings slices) :
    pairedWalls (setWallOuter g (rings - 1) s false) rings slices := by
  intro r' s' hr' hs'
  obtain ⟨hcw, hout⟩ := hp r' s' hr' hs'
  refine ⟨?_, fun hlt => ?_⟩
  · rw [setWallOuter_cw, setWallOuter_ccw]
    exact hcw
  · rw [setWallOuter_outer, setWallOuter_inner]
    rw [if_neg (by rintro ⟨h1, -⟩; omega)]
    exact hout hlt

/-- The all-walls grid satisfies the pairing invariant. -/
theorem createEmptyGrid_paired (rings slices : Nat) :
    pairedWalls createEmptyGrid rings slices := by
  intro r s _ _
  exact ⟨rfl, fun _ => rfl⟩

/-- `removeWall` on a correctly adjacent pair preserves the pairing
invariant — the matching flag pair is cleared atomically. -/
theorem removeWall_paired (g : Grid) (rings slices cr cs : Nat) (n : Neighbor)
    (hcs : cs < slices) (hadj : AdjOK slices cr cs n)
    (hp : pairedWalls g rings slices) :
    pairedWalls (removeWall g cr cs n.ring n.slice n.direction) rings slices := by
  obtain ⟨nr, ns, nd⟩ := n
  cases nd with
  | inner =>
    simp only [AdjOK] at hadj
    obtain ⟨h1, h2, h3⟩ := hadj
    rw [show removeWall g cr cs nr ns Dir.inner =
      setWallOuter (setWallInner g cr cs false) nr ns false from rfl, h2, h3]
    exact paired_clearPairInner g rings slices cr cs h1 hp
  | outer =>
    simp only [AdjOK] at hadj
    obtain ⟨h2, h3⟩ := hadj
    rw [show removeWall g cr cs nr ns Dir.outer =
      setWallInner (setWallOuter g cr cs false) nr ns false from rfl, h2, h3]
    exact paired_clearPairOuter g rings slices cr cs hp
  | cw =>
    simp only [AdjOK] at hadj
    obtain ⟨h2, h3⟩ := hadj
    rw [show removeWall g cr cs nr ns Dir.cw =
      setWallCCW (setWallCW g cr cs false) nr ns false from rfl, h2, h3]
    exact paired_clearPairCW g rings slices cr cs hcs hp
  | ccw =>
    simp only [AdjOK] at hadj
    obtain ⟨h2, h3⟩ := hadj
    rw [show removeWall g cr cs nr ns Dir.ccw =
      setWallCW (setWallCCW g cr cs false) nr ns false from rfl, h2, h3]
    exact paired_clearPairCCW g rings slices cr cs hcs hp

/-- Any xor of two 32-bit patterns is a 32-bit pattern. -/
theorem xor_lt_U32 {a b : Nat} (ha : a < U32) (hb : b < U32) : a ^^^ b < U32 :=
  Nat.bitwise_lt ha hb

/-- The mulberry32 output is a 32-bit pattern. -/
theorem rngNext_lt (st : RNGState) : (rngNext st).2 < U32 := by
  have hpos : 0 < U32 := by norm_num [U32]
  simp only [rngNext]
  apply xor_lt_U32
  · exact xor_lt_U32 (Nat.mod_lt _ hpos) (Nat.mod_lt _ hpos)
  · exact lt_of_le_of_lt
      (by rw [Nat.shiftRight_eq_div_pow]; exact Nat.div_le_self _ _)
      (xor_lt_U32 (Nat.mod_lt _ hpos) (Nat.mod_lt _ hpos))

/-- `nextInt(0, n)` lands in `[0, n)`. -/
theorem rngNextInt_lt (st : RNGState) (n : Nat) (hn : 0 < n) :
    (rngNextInt st n).2 < n := by
  simp only [rngNextInt]
  rw [Nat.div_lt_iff_lt_mul (by norm_num [U32] : 0 < U32)]
  calc (rngNext st).2 * n < U32 * n := Nat.mul_lt_mul_of_pos_right (rngNext_lt st) hn
    _ = n * U32 := Nat.mul_comm _ _

/-- Every neighbor produced by `getNeighbors` for a valid cell is validly
adjacent and in range. -/
theorem getNeighbors_mem (cfg : MazeConfig) (cr cs : Nat)
    (hcr : cr < cfg.rings) (hcs : cs < cfg.slices) :
    ∀ n ∈ getNeighbors cr cs cfg,
      AdjOK cfg.slices cr cs n ∧ n.ring < cfg.rings ∧ n.slice < cfg.slices := by
  have hs0 : 0 < cfg.slices := by omega
  intro n hn
  unfold getNeighbors at hn
  rcases List.mem_append.mp hn with h | h
  · rcases List.mem_append.mp h with h1 | h1
    · split at h1
      · next hc =>
        rcases List.mem_singleton.mp h1 with rfl
        exact ⟨⟨hc, rfl, rfl⟩, (by omega : cr - 1 < cfg.rings), hcs⟩
      · simp at h1
    · split at h1
      · next hc =>
        rcases List.mem_singleton.mp h1 with rfl
        exact ⟨⟨rfl, rfl⟩, (by omega : cr + 1 < cfg.rings), hcs⟩
      · simp at h1
  · rcases List.mem_cons.mp h with rfl | h2
    · exact ⟨⟨rfl, rfl⟩, hcr, Nat.mod_lt _ hs0⟩
    · rcases List.mem_singleton.mp h2 with rfl
      exact ⟨⟨rfl, rfl⟩, hcr, Nat.mod_lt _ hs0⟩

/-- The weighted candidate list only contains actual neighbors. -/
theorem mem_weightedNeighbors (vis : Nat → Bool) (slices : Nat)
    (ns : List Neighbor) (n : Neighbor) :
    n ∈ weightedNeighbors vis slices ns → n ∈ ns := by
  unfold weightedNeighbors
  induction ns with
  | nil => intro h; simp at h
  | cons m rest ih =>
    intro h
    rw [List.foldr_cons] at h
    split at h
    · exact List.mem_cons_of_mem _ (ih h)
    · rcases List.mem_append.mp h with h1 | h1
      · rcases List.eq_of_mem_replicate h1 with rfl
        exact List.mem_cons_self _ _
      · exact List.mem_cons_of_mem _ (ih h1)

/-- Unfolding equation of one `carveLoop` iteration on a nonempty stack. -/
theorem carveLoop_succ_cons (cfg : MazeConfig) (f : Nat) (g : Grid)
    (vis : Nat → Bool) (cr cs : Nat) (rest : List (Nat × Nat)) (st : RNGState) :
    carveLoop cfg (f + 1) g vis ((cr, cs) :: rest) st =
      (fun w =>
        if w.length = 0 then carveLoop cfg f g vis rest st
        else
          carveLoop cfg f
            (removeWall g cr cs
              (w.getD (rngNextInt st w.length).2 ⟨0, 0, Dir.cw⟩).ring
              (w.getD (rngNextInt st w.length).2 ⟨0, 0, Dir.cw⟩).slice
              (w.getD (rngNextInt st w.length).2 ⟨0, 0, Dir.cw⟩).direction)
            (fun k => k == keyOf cfg.slices
                (w.getD (rngNextInt st w.length).2 ⟨0, 0, Dir.cw⟩).ring
                (w.getD (rngNextInt st w.length).2 ⟨0, 0, Dir.cw⟩).slice || vis k)
            (((w.getD (rngNextInt st w.length).2 ⟨0, 0, Dir.cw⟩).ring,
              (w.getD (rngNextInt st w.length).2 ⟨0, 0, Dir.cw⟩).slice) ::
              (cr, cs) :: rest)
            (rngNextInt st w.length).1)
      (weightedNeighbors vis cfg.slices (getNeighbors cr cs cfg)) := rfl

/-- The DFS carving loop preserves the pairing invariant: every wall it
removes is removed through `removeWall` on a valid adjacent pair. -/
theorem carveLoop_paired (cfg : MazeConfig) :
    ∀ (fuel : Nat) (g : Grid) (vis : Nat → Bool) (stack : List (Nat × Nat))
      (st : RNGState),
      (∀ p ∈ stack, p.1 < cfg.rings ∧ p.2 < cfg.slices) →
      pairedWalls g cfg.rings cfg.slices →
      pairedWalls (carveLoop cfg fuel g vis stack st).1 cfg.rings cfg.slices := by
  intro fuel
  induction fuel with
  | zero => intro g vis stack st _ hp; exact hp
  | succ f ih =>
    intro g vis stack st hstack hp
    cases stack with
    | nil => exact hp
    | cons head rest =>
      obtain ⟨cr, cs⟩ := head
      have hhead := hstack (cr, cs) (List.mem_cons_self _ _)
      rw [carveLoop_succ_cons]
      simp only
      split
      · exact ih _ _ _ _ (fun p hp' => hstack p (List.mem_cons_of_mem _ hp')) hp
      · next hne =>
        have hidx : (rngNextInt st
            (weightedNeighbors vis cfg.slices (getNeighbors cr cs cfg)).length).2 <
            (weightedNeighbors vis cfg.slices (getNeighbors cr cs cfg)).length :=
          rngNextInt_lt st _ (by omega)
        have hmemw : (weightedNeighbors vis cfg.slices
            (getNeighbors cr cs cfg)).getD (rngNextInt st
              (weightedNeighbors vis cfg.slices (getNeighbors cr cs cfg)).length).2
            ⟨0, 0, Dir.cw⟩ ∈
            weightedNeighbors vis cfg.slices (getNeighbors cr cs cfg) := by
          rw [List.getD_eq_getElem _ _ hidx]
          exact List.getElem_mem _
        have hmem := mem_weightedNeighbors vis cfg.slices _ _ hmemw
        obtain ⟨hadj, hvr, hvs⟩ :=
          getNeighbors_mem cfg cr cs hhead.1 hhead.2 _ hmem
        apply ih
        · intro p hp'
          rcases List.mem_cons.mp hp' with rfl | hp''
          · exact ⟨hvr, hvs⟩
          · rcases List.mem_cons.mp hp'' with rfl | hp3
            · exact hhead
            · exact hstack p (List.mem_cons_of_mem _ hp3)
        · exact removeWall_paired g cfg.rings cfg.slices cr cs _ hhead.2 hadj hp

/-- Any loop clearing ring-0 inner walls preserves the pairing invariant. -/
theorem paired_fold_inner0 (rings slices : Nat) (e : Nat → Nat) :
    ∀ (l : List Nat) (g : Grid), pairedWalls g rings slices →
      pairedWalls (l.foldl (fun acc i => setWallInner acc 0 (e i) false) g)
        rings slices := by
  intro l
  induction l with
  | nil => intro g hp; exact hp
  | cons i rest ih =>
    intro g hp
    rw [List.foldl_cons]
    exact ih _ (paired_setWallInner0 _ _ _ _ hp)



example (g : Grid) (cfg : MazeConfig) (st : RNGState) :
    carveSpanningTree g cfg st =
      carveLoop cfg (2 * cfg.rings * cfg.slices + 2) g
        (fun k => k == keyOf cfg.slices 0 (rngNextInt st cfg.slices).2)
        [(0, (rngNextInt st cfg.slices).2)] (rngNextInt st cfg.slices).1 := rfl



/-- Spanning-tree carving preserves the pairing invariant. -/
theorem carveSpanningTree_paired (g : Grid) (cfg : MazeConfig) (st : RNGState)
    (hr : 1 ≤ cfg.rings) (hs : 1 ≤ cfg.slices)
    (hp : pairedWalls g cfg.rings cfg.slices) :
    pairedWalls (carveSpanningTree g cfg st).1 cfg.rings cfg.slices := by
  rw [show carveSpanningTree g cfg st =
    carveLoop cfg (2 * cfg.rings * cfg.slices + 2) g
      (fun k => k == keyOf cfg.slices 0 (rngNextInt st cfg.slices).2)
      [(0, (rngNextInt st cfg.slices).2)] (rngNextInt st cfg.slices).1 from rfl]
  apply carveLoop_paired
  · intro p hp2
    rcases List.mem_singleton.mp hp2 with rfl
    refine ⟨?_, ?_⟩
    · show (0 : Nat) < cfg.rings
      omega
    · show (rngNextInt st cfg.slices).2 < cfg.slices
      exact rngNextInt_lt st cfg.slices (by omega)
  · exact hp

/-- The entry-hole step preserves the pairing invariant. -/
theorem openEntryHoles_paired (g : Grid) (cfg : MazeConfig) (st : RNGState)
    (hp : pairedWalls g cfg.rings cfg.slices) :
    pairedWalls (openEntryHoles g cfg st).1 cfg.rings cfg.slices := by
  exact paired_fold_inner0 cfg.rings cfg.slices _ _ g hp

/-- One extra-opening iteration preserves the pairing invariant. -/
theorem extraOpeningStep_paired (cfg : MazeConfig) (gst : Grid × RNGState)
    (hr : 1 ≤ cfg.rings) (hs : 1 ≤ cfg.slices)
    (hp : pairedWalls gst.1 cfg.rings cfg.slices) :
    pairedWalls (extraOpeningStep cfg gst).1 cfg.rings cfg.slices := by
  have hrlt : (rngNextInt gst.2 cfg.rings).2 < cfg.rings :=
    rngNextInt_lt _ _ (by omega)
  have hslt : (rngNextInt (rngNextInt gst.2 cfg.rings).1 cfg.slices).2 <
      cfg.slices := rngNextInt_lt _ _ (by omega)
  simp only [extraOpeningStep]
  split
  · split
    · next hg =>
      split
      · exact removeWall_paired _ _ _ _ _ ⟨_, _, Dir.inner⟩ hslt
          ⟨hg.1, rfl, rfl⟩ hp
      · split
        · exact removeWall_paired _ _ _ _ _ ⟨_, _, Dir.outer⟩ hslt
            ⟨rfl, rfl⟩ hp
        · exact hp
    · split
      · exact removeWall_paired _ _ _ _ _ ⟨_, _, Dir.outer⟩ hslt
          ⟨rfl, rfl⟩ hp
      · exact hp
  · split
    · exact removeWall_paired _ _ _ _ _ ⟨_, _, Dir.cw⟩ hslt ⟨rfl, rfl⟩ hp
    · exact hp

/-- The extra-openings step preserves the pairing invariant. -/
theorem addExtraOpenings_paired (g : Grid) (cfg : MazeConfig)
    (params : GenerationParams) (st : RNGState)
    (hr : 1 ≤ cfg.rings) (hs : 1 ≤ cfg.slices)
    (hp : pairedWalls g cfg.rings cfg.slices) :
    pairedWalls (addExtraOpenings g cfg params st).1 cfg.rings cfg.slices := by
  unfold addExtraOpenings
  have key : ∀ (l : List Nat) (gst : Grid × RNGState),
      pairedWalls gst.1 cfg.rings cfg.slices →
      pairedWalls ((l.foldl (fun acc _ => extraOpeningStep cfg acc) gst)).1
        cfg.rings cfg.slices := by
    intro l
    induction l with
    | nil => intro gst hp'; exact hp'
    | cons i rest ih =>
      intro gst hp'
      rw [List.foldl_cons]
      exact ih _ (extraOpeningStep_paired cfg gst hr hs hp')
  exact key _ (g, st) hp

/-- One cell step of `capRadialWalls` preserves the pairing invariant. -/
theorem capCell_paired (cfg : MazeConfig) (params : GenerationParams)
    (gst : Grid × RNGState) (r s : Nat) (hs' : s < cfg.slices)
    (hp : pairedWalls gst.1 cfg.rings cfg.slices) :
    pairedWalls (capCell cfg params gst r s).1 cfg.rings cfg.slices := by
  unfold capCell
  split
  · exact hp
  · split
    · exact paired_clearPairCW _ _ _ _ _ hs' hp
    · split
      · exact paired_clearPairCW _ _ _ _ _ hs' hp
      · exact hp

/-- The tangential-wall density cap preserves the pairing invariant. -/
theorem capRadialWalls_paired (g : Grid) (cfg : MazeConfig)
    (params : GenerationParams) (st : RNGState)
    (hp : pairedWalls g cfg.rings cfg.slices) :
    pairedWalls (capRadialWalls g cfg params st).1 cfg.rings cfg.slices := by
  unfold capRadialWalls
  have inner : ∀ (r : Nat) (l : List Nat) (gst : Grid × RNGState),
      (∀ s ∈ l, s < cfg.slices) →
      pairedWalls gst.1 cfg.rings cfg.slices →
      pairedWalls ((l.foldl (fun acc2 s => capCell cfg params acc2 r s) gst)).1
        cfg.rings cfg.slices := by
    intro r l
    induction l with
    | nil => intro gst _ hp'; exact hp'
    | cons s rest ih =>
      intro gst hmem hp'
      rw [List.foldl_cons]
      exact ih _ (fun x hx => hmem x (List.mem_cons_of_mem _ hx))
        (capCell_paired cfg params gst r s (hmem s (List.mem_cons_self _ _)) hp')
  have outer : ∀ (l : List Nat) (gst : Grid × RNGState),
      pairedWalls gst.1 cfg.rings cfg.slices →
      pairedWalls ((l.foldl (fun acc r =>
          (List.range cfg.slices).foldl
            (fun acc2 s => capCell cfg params acc2 r s) acc) gst)).1
        cfg.rings cfg.slices := by
    intro l
    induction l with
    | nil => intro gst hp'; exact hp'
    | cons r rest ih =>
      intro gst hp'
      rw [List.foldl_cons]
      exact ih _ (inner r _ gst (fun x hx => List.mem_range.mp hx) hp')
  exact outer _ (g, st) hp

/-- Any loop clearing outermost-ring outer walls preserves the pairing
invariant. -/
theorem paired_fold_outerLast (rings slices : Nat) (e : Nat → Nat) :
    ∀ (l : List Nat) (g : Grid), pairedWalls g rings slices →
      pairedWalls (l.foldl
        (fun acc i => setWallOuter acc (rings - 1) (e i) false) g) rings slices := by
  intro l
  induction l with
  | nil => intro g hp; exact hp
  | cons i rest ih =>
    intro g hp
    rw [List.foldl_cons]
    exact ih _ (paired_setWallOuterLast _ _ _ _ hp)

/-- Exit placement preserves the pairing invariant. -/
theorem placeExit_paired (g : Grid) (cfg : MazeConfig)
    (params : GenerationParams) (st : RNGState)
    (hp : pairedWalls g cfg.rings cfg.slices) :
    pairedWalls (placeExit g cfg params st).1 cfg.rings cfg.slices := by
  exact paired_fold_outerLast cfg.rings cfg.slices _ _ g hp

/-- The guaranteed-radial-path step preserves the pairing invariant. -/
theorem ensurePathToExit_paired (g : Grid) (cfg : MazeConfig)
    (exit : ExitSector) (hp : pairedWalls g cfg.rings cfg.slices) :
    pairedWalls (ensurePathToExit g cfg exit) cfg.rings cfg.slices := by
  unfold ensurePathToExit
  have key : ∀ (l : List Nat) (g0 : Grid),
      pairedWalls g0 cfg.rings cfg.slices →
      pairedWalls (l.foldl (fun acc r =>
        if (acc r exit.sliceStart).wallOuter = true ∧
            (acc (r + 1) exit.sliceStart).wallInner = true then
          setWallInner (setWallOuter acc r exit.sliceStart false)
            (r + 1) exit.sliceStart false
        else acc) g0) cfg.rings cfg.slices := by
    intro l
    induction l with
    | nil => intro g0 hp'; exact hp'
    | cons r rest ih =>
      intro g0 hp'
      rw [List.foldl_cons]
      apply ih
      split
      · exact paired_clearPairOuter _ _ _ _ _ hp'
      · exact hp'
  exact key _ g hp

/-- A full carving attempt yields a grid satisfying the pairing
invariant. -/
theorem genAttempt_paired (cfg : MazeConfig) (params : GenerationParams)
    (seed : Nat) (hr : 1 ≤ cfg.rings) (hs : 1 ≤ cfg.slices) :
    pairedWalls (genAttempt cfg params seed).1 cfg.rings cfg.slices := by
  exact ensurePathToExit_paired _ _ _
    (placeExit_paired _ _ _ _
      (capRadialWalls_paired _ _ _ _
        (addExtraOpenings_paired _ _ _ _ hr hs
          (openEntryHoles_paired _ _ _
            (carveSpanningTree_paired _ _ _ hr hs
              (createEmptyGrid_paired _ _))))))

/-- The fallback maze satisfies the pairing invariant. -/
theorem fallback_paired (cfg : MazeConfig) (params : GenerationParams) :
    pairedWalls (generateFallbackMaze cfg params).cells cfg.rings cfg.slices := by
  show pairedWalls (fallbackCells cfg.rings cfg.slices) cfg.rings cfg.slices
  unfold fallbackCells
  have inner : ∀ (r : Nat) (l : List Nat) (g : Grid),
      (∀ s ∈ l, s < cfg.slices) →
      pairedWalls g cfg.rings cfg.slices →
      pairedWalls (l.foldl (fun a s => clearPairCW a cfg.slices r s) g)
        cfg.rings cfg.slices := by
    intro r l
    induction l with
    | nil => intro g _ hp; exact hp
    | cons s rest ih =>
      intro g hmem hp
      rw [List.foldl_cons]
      exact ih _ (fun x hx => hmem x (List.mem_cons_of_mem _ hx))
        (paired_clearPairCW _ _ _ _ _ (hmem s (List.mem_cons_self _ _)) hp)
  have outer : ∀ (l : List Nat) (g : Grid),
      pairedWalls g cfg.rings cfg.slices →
      pairedWalls (l.foldl (fun acc r =>
        (fun acc2 =>
          if r < cfg.rings - 1 then
            setWallInner (setWallOuter acc2 r (r % cfg.slices) false)
              (r + 1) (r % cfg.slices) false
          else acc2)
        ((List.range cfg.slices).foldl
          (fun a s => clearPairCW a cfg.slices r s) acc)) g)
        cfg.rings cfg.slices := by
    intro l
    induction l with
    | nil => intro g hp; exact hp
    | cons r rest ih =>
      intro g hp
      rw [List.foldl_cons]
      apply ih
      simp only
      split
      · exact paired_clearPairOuter _ _ _ _ _
          (inner r _ g (fun x hx => List.mem_range.mp hx) hp)
      · exact inner r _ g (fun x hx => List.mem_range.mp hx) hp
  exact paired_setWallOuterLast _ _ _ _
    (paired_setWallOuterLast _ _ _ _
      (outer _ _ (createEmptyGrid_paired _ _)))

/-- Every maze returned by `generateMaze` satisfies the pairing
invariant. -/
theorem generateMaze_walls_paired_pre (cfg : MazeConfig)
    (params : GenerationParams) (hr : 1 ≤ cfg.rings) (hs : 1 ≤ cfg.slices) :
    pairedWalls (generateMaze cfg params).cells cfg.rings cfg.slices := by
  have main : ∀ fuel seed,
      pairedWalls (genLoop cfg params fuel seed).cells cfg.rings cfg.slices := by
    intro fuel
    induction fuel with
    | zero => intro seed; exact fallback_paired cfg params
    | succ n ihf =>
      intro seed
      rw [genLoop]
      split
      · exact ihf (seed + 1)
      · split
        · exact genAttempt_paired cfg params seed hr hs
        · exact ihf (seed + 1)
  exact main MAX_REGEN_ATTEMPTS cfg.seed

/-- C6: in every maze returned by `generateMaze`, the paired wall flags of
adjacent cells agree — `wallCW` of a cell equals `wallCCW` of its
slice-successor and `wallOuter` equals `wallInner` of the next ring's cell
— and every `removeWall` step on a validly adjacent pair preserves this
pairing atomically. -/
theorem generateMaze_walls_paired (cfg : MazeConfig) (params : GenerationParams)
    (hr : 1 ≤ cfg.rings) (hs : 1 ≤ cfg.slices) :
    pairedWalls (generateMaze cfg params).cells cfg.rings cfg.slices ∧
    (∀ (g : Grid) (cr cs : Nat) (n : Neighbor), cs < cfg.slices →
      AdjOK cfg.slices cr cs n → pairedWalls g cfg.rings cfg.slices →
      pairedWalls (removeWall g cr cs n.ring n.slice n.direction)
        cfg.rings cfg.slices) :=
  ⟨generateMaze_walls_paired_pre cfg params hr hs,
   fun g cr cs n h1 h2 h3 =>
     removeWall_paired g cfg.rings cfg.slices cr cs n h1 h2 h3⟩

/-- Witness for C6 at a concrete one-ring four-slice config. -/
theorem generateMaze_walls_paired_witness :
    1 ≤ (⟨1, 4, 0, 30, 200, 6⟩ : MazeConfig).rings ∧
    1 ≤ (⟨1, 4, 0, 30, 200, 6⟩ : MazeConfig).slices ∧
    pairedWalls (generateMaze ⟨1, 4, 0, 30, 200, 6⟩ defaultGenerationParams).cells
      (⟨1, 4, 0, 30, 200, 6⟩ : MazeConfig).rings
      (⟨1, 4, 0, 30, 200, 6⟩ : MazeConfig).slices :=
  ⟨by decide, by decide,
   (generateMaze_walls_paired ⟨1, 4, 0, 30, 200, 6⟩ defaultGenerationParams
     (by decide) (by decide)).1⟩

/-! ### C7: solver path shape -/
/-- `recPath` on a negative key yields the empty path. -/
theorem recPath_neg (slices : Nat) (vis : VisMap) (f : Nat) (c : Int)
    (h : c < 0) : recPath slices vis f c = [] := by
  cases f with
  | zero => rfl
  | succ f => simp [recPath, h]

/-- Parent chains survive insertion of a previously unvisited key. -/
theorem chainTo_visSet_fresh (vis : VisMap) (nk : Nat) (v : Int)
    (hfresh : vis nk = none) :
    ∀ n k, chainTo vis k n → chainTo (visSet vis nk v) k n := by
  intro n
  induction n with
  | zero =>
    intro k h
    have h' : vis k = some (-1) := h
    have hk : k ≠ nk := by
      intro he
      rw [he, hfresh] at h'
      cases h'
    show visSet vis nk v k = some (-1)
    simp [visSet, hk, h']
  | succ n ih =>
    intro k h
    obtain ⟨p, hp, hc⟩ := (h : ∃ p : Nat, vis k = some (p : Int) ∧ chainTo vis p n)
    have hk : k ≠ nk := by
      intro he
      rw [he, hfresh] at hp
      cases hp
    exact show ∃ p : Nat, visSet vis nk v k = some (p : Int) ∧
        chainTo (visSet vis nk v) p n from
      ⟨p, by simp [visSet, hk, hp], ih p hc⟩

/-- Shape of the reconstructed path: from a key with a parent chain of
length `n < fuel`, `recPath` returns a non-empty list whose last entry
decodes the key itself and whose first entry decodes a root key. -/
theorem recPath_props (slices : Nat) (vis : VisMap) :
    ∀ (n k : Nat), chainTo vis k n → ∀ f, n < f →
      recPath slices vis f (k : Int) ≠ [] ∧
      (recPath slices vis f (k : Int)).getLast? =
        some (k / slices, k % slices) ∧
      ∃ k0, vis k0 = some (-1) ∧
        (recPath slices vis f (k : Int)).head? =
          some (k0 / slices, k0 % slices) := by
  intro n
  induction n with
  | zero =>
    intro k hch f hf
    have h' : vis k = some (-1) := hch
    obtain ⟨f', rfl⟩ : ∃ f', f = f' + 1 := ⟨f - 1, by omega⟩
    have hrw : recPath slices vis (f' + 1) (k : Int) =
        [(k / slices, k % slices)] := by
      rw [recPath, if_neg (Int.not_ofNat_neg k)]
      simp [h', recPath_neg]
    rw [hrw]
    exact ⟨by simp, rfl, k, h', rfl⟩
  | succ n ih =>
    intro k hch f hf
    obtain ⟨p, hp, hcp⟩ :=
      (hch : ∃ p : Nat, vis k = some (p : Int) ∧ chainTo vis p n)
    obtain ⟨f', rfl⟩ : ∃ f', f = f' + 1 := ⟨f - 1, by omega⟩
    have hrw : recPath slices vis (f' + 1) (k : Int) =
        recPath slices vis f' (p : Int) ++ [(k / slices, k % slices)] := by
      rw [recPath, if_neg (Int.not_ofNat_neg k)]
      simp [hp]
    obtain ⟨ihne, ihlast, k0, hk0, ihhead⟩ := ih p hcp f' (by omega)
    refine ⟨?_, ?_, k0, hk0, ?_⟩
    · rw [hrw]
      intro hemp
      rw [List.append_eq_nil] at hemp
      exact absurd hemp.2 (by simp)
    · rw [hrw]
      exact List.getLast?_concat _
    · rw [hrw, List.head?_append_of_ne_nil _ ihne]
      exact ihhead
/-- Ring component of a flat key. -/
theorem keyOf_div (slices r s : Nat) (hs : s < slices) :
    keyOf slices r s / slices = r := by
  unfold keyOf
  rw [Nat.mul_comm, Nat.mul_add_div (by omega), Nat.div_eq_of_lt hs]
  omega

/-- Slice component of a flat key. -/
theorem keyOf_mod (slices r s : Nat) (hs : s < slices) :
    keyOf slices r s % slices = s := by
  unfold keyOf
  rw [Nat.add_comm, Nat.add_mul_mod_self_right, Nat.mod_eq_of_lt hs]
/-- Flat keys determine ring and slice for in-range slices. -/
theorem keyOf_inj (slices r1 s1 r2 s2 : Nat) (h1 : s1 < slices)
    (h2 : s2 < slices) (he : keyOf slices r1 s1 = keyOf slices r2 s2) :
    r1 = r2 ∧ s1 = s2 := by
  constructor
  · rw [← keyOf_div slices r1 s1 h1, ← keyOf_div slices r2 s2 h2, he]
  · rw [← keyOf_mod slices r1 s1 h1, ← keyOf_mod slices r2 s2 h2, he]

/-- Invariant preservation of one conditional neighbor visit.  Against a
visited map whose roots are ring-0 keys, whose entries carry chains of
length at most `c + 1` and with a current key whose chain has length at
most `c`, `tryVisit` preserves all three bounds, only adds keys, and any
enqueued cell is in range and freshly recorded. -/
theorem tryVisit_inv (rings slices : Nat) (vis : VisMap) (c ck : Nat)
    (w : Bool) (r s : Nat)
    (hrs : w = true → r < rings ∧ s < slices)
    (hroot : ∀ k, vis k = some (-1) → k < slices)
    (hchain : ∀ k p, vis k = some p → ∃ n, n ≤ c + 1 ∧ chainTo vis k n)
    (hck : ∃ n, n ≤ c ∧ chainTo vis ck n) :
    (∀ k, (tryVisit slices vis ck w r s).1 k = some (-1) → k < slices) ∧
    (∀ k p, (tryVisit slices vis ck w r s).1 k = some p →
      ∃ n, n ≤ c + 1 ∧ chainTo (tryVisit slices vis ck w r s).1 k n) ∧
    (∃ n, n ≤ c ∧ chainTo (tryVisit slices vis ck w r s).1 ck n) ∧
    (∀ k, (vis k).isSome = true →
      ((tryVisit slices vis ck w r s).1 k).isSome = true) ∧
    (∀ p ∈ (tryVisit slices vis ck w r s).2, p.1 < rings ∧ p.2 < slices ∧
      ((tryVisit slices vis ck w r s).1 (keyOf slices p.1 p.2)).isSome
        = true) := by
  by_cases hcond : w = true ∧ (vis (keyOf slices r s)).isNone = true
  · have hfresh : vis (keyOf slices r s) = none :=
      Option.isNone_iff_eq_none.mp hcond.2
    obtain ⟨hr, hs⟩ := hrs hcond.1
    simp only [tryVisit, if_pos hcond]
    obtain ⟨n0, hn0, hch0⟩ := hck
    refine ⟨?_, ?_, ?_, ?_, ?_⟩
    · intro k hk
      by_cases hkn : k = keyOf slices r s
      · subst hkn
        simp only [visSet, if_pos rfl] at hk
        have : (ck : Int) = -1 := by injection hk
        omega
      · apply hroot k
        simpa [visSet, hkn] using hk
    · intro k p hk
      by_cases hkn : k = keyOf slices r s
      · subst hkn
        refine ⟨n0 + 1, by omega, ?_⟩
        exact show ∃ q : Nat,
            visSet vis (keyOf slices r s) (ck : Int) (keyOf slices r s) =
              some (q : Int) ∧
            chainTo (visSet vis (keyOf slices r s) (ck : Int)) q n0 from
          ⟨ck, by simp [visSet],
            chainTo_visSet_fresh vis _ _ hfresh n0 ck hch0⟩
      · have hold : vis k = some p := by
          simpa [visSet, hkn] using hk
        obtain ⟨n, hn, hchn⟩ := hchain k p hold
        exact ⟨n, hn, chainTo_visSet_fresh vis _ _ hfresh n k hchn⟩
    · exact ⟨n0, hn0, chainTo_visSet_fresh vis _ _ hfresh n0 ck hch0⟩
    · intro k hk
      by_cases hkn : k = keyOf slices r s
      · simp [visSet, hkn]
      · simpa [visSet, hkn] using hk
    · intro p hp
      have hpe : p = (r, s) := by simpa using hp
      subst hpe
      exact ⟨hr, hs, by simp [visSet]⟩
  · simp only [tryVisit, if_neg hcond]
    exact ⟨hroot, hchain, hck, fun k hk => hk, by simp⟩
/-- Invariant preservation of the whole neighbor-exploration block of one
BFS iteration: root and chain invariants are preserved (chains grow by at
most one), no key is removed, and every enqueued cell is a valid recorded
cell. -/
theorem bfsVisitNeighbors_inv (cells : Grid) (rings slices cr cs : Nat)
    (vis : VisMap) (c : Nat) (hcr : cr < rings) (hcs : cs < slices)
    (hroot : ∀ k, vis k = some (-1) → k < slices)
    (hchain : ∀ k p, vis k = some p → ∃ n, n ≤ c ∧ chainTo vis k n)
    (hcksome : (vis (keyOf slices cr cs)).isSome = true) :
    (∀ k, (bfsVisitNeighbors cells rings slices cr cs vis).1 k = some (-1) →
      k < slices) ∧
    (∀ k p, (bfsVisitNeighbors cells rings slices cr cs vis).1 k = some p →
      ∃ n, n ≤ c + 1 ∧
        chainTo (bfsVisitNeighbors cells rings slices cr cs vis).1 k n) ∧
    (∀ k, (vis k).isSome = true →
      ((bfsVisitNeighbors cells rings slices cr cs vis).1 k).isSome
        = true) ∧
    (∀ p ∈ (bfsVisitNeighbors cells rings slices cr cs vis).2,
      p.1 < rings ∧ p.2 < slices ∧
      ((bfsVisitNeighbors cells rings slices cr cs vis).1
        (keyOf slices p.1 p.2)).isSome = true) := by
  have hck : ∃ n, n ≤ c ∧ chainTo vis (keyOf slices cr cs) n := by
    obtain ⟨pv, hpv⟩ := Option.isSome_iff_exists.mp hcksome
    exact hchain _ pv hpv
  have hchain' : ∀ k p, vis k = some p → ∃ n, n ≤ c + 1 ∧ chainTo vis k n :=
    fun k p h => by obtain ⟨n, hn, hc⟩ := hchain k p h; exact ⟨n, by omega, hc⟩
  simp only [bfsVisitNeighbors]
  obtain ⟨R1, C1, K1, M1, Q1⟩ := tryVisit_inv rings slices vis c
    (keyOf slices cr cs)
    (decide (0 < cr) && ((cells cr cs).wallInner == false)) (cr - 1) cs
    (fun _ => ⟨by omega, hcs⟩) hroot hchain' hck
  obtain ⟨R2, C2, K2, M2, Q2⟩ := tryVisit_inv rings slices _ c
    (keyOf slices cr cs)
    (decide (cr < rings - 1) && ((cells cr cs).wallOuter == false))
    (cr + 1) cs
    (fun hw => ⟨by simp at hw; omega, hcs⟩) R1 C1 K1
  obtain ⟨R3, C3, K3, M3, Q3⟩ := tryVisit_inv rings slices _ c
    (keyOf slices cr cs) ((cells cr cs).wallCW == false)
    cr ((cs + 1) % slices)
    (fun _ => ⟨hcr, Nat.mod_lt _ (by omega)⟩) R2 C2 K2
  obtain ⟨R4, C4, K4, M4, Q4⟩ := tryVisit_inv rings slices _ c
    (keyOf slices cr cs) ((cells cr cs).wallCCW == false)
    cr ((cs + slices - 1) % slices)
    (fun _ => ⟨hcr, Nat.mod_lt _ (by omega)⟩) R3 C3 K3
  refine ⟨R4, C4, fun k hk => M4 _ (M3 _ (M2 _ (M1 _ hk))), ?_⟩
  intro p hp
  simp only [List.mem_append] at hp
  rcases hp with ((hp | hp) | hp) | hp
  · obtain ⟨h1, h2, h3⟩ := Q1 p hp
    exact ⟨h1, h2, M4 _ (M3 _ (M2 _ h3))⟩
  · obtain ⟨h1, h2, h3⟩ := Q2 p hp
    exact ⟨h1, h2, M4 _ (M3 _ h3)⟩
  · obtain ⟨h1, h2, h3⟩ := Q3 p hp
    exact ⟨h1, h2, M4 _ h3⟩
  · exact Q4 p hp
/-- The BFS loop satisfies the path-shape specification from any state
satisfying the visited-map and queue invariants with enough counter
budget. -/
theorem bfsLoop_pathSpec (cells : Grid) (rings slices : Nat)
    (exit : ExitSector) (hs1 : 1 ≤ slices) :
    ∀ (fuel : Nat) (q : List (Nat × Nat)) (vis : VisMap) (c : Nat),
      (∀ k, vis k = some (-1) → k < slices) →
      (∀ k p, vis k = some p → ∃ n, n ≤ c ∧ chainTo vis k n) →
      QueueInv rings slices vis q →
      c + fuel ≤ rings * slices + 1 →
      PathSpec cells rings slices exit
        (bfsLoop cells rings slices exit fuel q vis) := by
  intro fuel
  induction fuel with
  | zero =>
    intro q vis c _ _ _ _
    have heq : bfsLoop cells rings slices exit 0 q vis = ⟨false, []⟩ := by
      cases q with
      | nil => rfl
      | cons a t => cases a; rfl
    rw [heq]
    exact ⟨fun h => Bool.noConfusion h, fun _ => rfl⟩
  | succ fuel ih =>
    intro q vis c hroot hchain hq hbound
    cases q with
    | nil => exact ⟨fun h => Bool.noConfusion h, fun _ => rfl⟩
    | cons hd rest =>
      obtain ⟨cr, cs⟩ := hd
      obtain ⟨hcr, hcs, hcksome⟩ := hq (cr, cs) (List.mem_cons_self _ _)
      have heq : bfsLoop cells rings slices exit (fuel + 1)
          ((cr, cs) :: rest) vis =
          if (exitKeys rings slices exit).contains (keyOf slices cr cs) ∧
              (cells cr cs).wallOuter = false then
            ⟨true, recPath slices vis (rings * slices + 1)
              (keyOf slices cr cs)⟩
          else
            bfsLoop cells rings slices exit fuel
              (rest ++ (bfsVisitNeighbors cells rings slices cr cs vis).2)
              (bfsVisitNeighbors cells rings slices cr cs vis).1 := rfl
      rw [heq]
      by_cases hfound : (exitKeys rings slices exit).contains
          (keyOf slices cr cs) ∧ (cells cr cs).wallOuter = false
      · rw [if_pos hfound]
        obtain ⟨pv, hpv⟩ := Option.isSome_iff_exists.mp hcksome
        obtain ⟨n, hn, hchn⟩ := hchain _ pv hpv
        obtain ⟨hne, hlast, k0, hk0, hhead⟩ := recPath_props slices vis n
          (keyOf slices cr cs) hchn (rings * slices + 1) (by omega)
        have hmem : keyOf slices cr cs ∈ exitKeys rings slices exit :=
          List.mem_of_elem_eq_true hfound.1
        simp only [exitKeys, List.mem_map, List.mem_range] at hmem
        obtain ⟨j, hj, hkey⟩ := hmem
        obtain ⟨hr', hs'⟩ := keyOf_inj slices (rings - 1)
          ((exit.sliceStart + j) % slices) cr cs (Nat.mod_lt _ (by omega))
          hcs hkey
        refine ⟨fun _ => ⟨hne, ⟨k0, hroot k0 hk0, ?_⟩,
          ⟨j, hj, ?_, ?_⟩⟩, fun h => Bool.noConfusion h⟩
        · have hk0s : k0 < slices := hroot k0 hk0
          rw [hhead, Nat.div_eq_of_lt hk0s, Nat.mod_eq_of_lt hk0s]
        · rw [show ((⟨true, recPath slices vis (rings * slices + 1)
              ((keyOf slices cr cs : Nat) : Int)⟩ : SolveResult)).path =
              recPath slices vis (rings * slices + 1)
                ((keyOf slices cr cs : Nat) : Int) from rfl,
            hlast, keyOf_div slices cr cs hcs, keyOf_mod slices cr cs hcs,
            hr', hs']
        · rw [hr', hs']
          exact hfound.2
      · rw [if_neg hfound]
        obtain ⟨R4, C4, M4, Q4⟩ := bfsVisitNeighbors_inv cells rings slices
          cr cs vis c hcr hcs hroot hchain hcksome
        apply ih _ _ (c + 1) R4 C4
        · intro p hp
          rcases List.mem_append.mp hp with hp | hp
          · obtain ⟨h1, h2, h3⟩ := hq p (List.mem_cons_of_mem _ hp)
            exact ⟨h1, h2, M4 _ h3⟩
          · exact Q4 p hp
        · omega
/-- C7: Whenever `solveMaze` returns `solvable = true`, the returned path
is non-empty, its first cell has ring 0, and its last cell has ring
`rings - 1`, lies within the exit sector, and has its outer wall clear;
whenever `solveMaze` returns `solvable = false`, the returned path is
empty. -/
theorem solveMaze_path_shape (cells : Grid) (cfg : MazeConfig)
    (exit : ExitSector) (hr : 1 ≤ cfg.rings) (hs : 1 ≤ cfg.slices) :
    PathSpec cells cfg.rings cfg.slices exit (solveMaze cells cfg exit) := by
  have hroot : ∀ k, (fun k => if k < cfg.slices then some (-1 : Int)
      else none) k = some (-1) → k < cfg.slices := by
    intro k hk
    by_cases h : k < cfg.slices
    · exact h
    · simp [h] at hk
  apply bfsLoop_pathSpec cells cfg.rings cfg.slices exit hs
    (cfg.rings * cfg.slices + 1) _ _ 0 hroot
  · intro k p hk
    refine ⟨0, le_refl 0, ?_⟩
    show (fun k => if k < cfg.slices then some (-1 : Int) else none) k
      = some (-1)
    by_cases h : k < cfg.slices
    · simp [h]
    · simp [h] at hk
  · intro p hp
    simp only [List.mem_map, List.mem_range] at hp
    obtain ⟨s, hslt, rfl⟩ := hp
    refine ⟨by omega, hslt, ?_⟩
    show ((fun k => if k < cfg.slices then some (-1 : Int) else none)
      (keyOf cfg.slices 0 s)).isSome = true
    simp [keyOf, hslt]
  · omega

theorem solveMaze_path_shape_witness :
    PathSpec (fun r s => ⟨r, s, false, false, false, false⟩) 1 4 ⟨0, 1⟩
      (solveMaze (fun r s => ⟨r, s, false, false, false, false⟩)
        ⟨1, 4, 0, 30, 200, 6⟩ ⟨0, 1⟩) :=
  solveMaze_path_shape (fun r s => ⟨r, s, false, false, false, false⟩)
    ⟨1, 4, 0, 30, 200, 6⟩ ⟨0, 1⟩ (by decide) (by decide)
